import Mathlib

set_option maxHeartbeats 1000000

namespace SpriteSprout

/-! # Shallow embedding of the sprite-sprout grid/palette engine

Pixel buffers are the flat RGBA `Uint8ClampedArray` byte arrays of the
engine, grouped into 4-byte pixels (row-major).  All integer arithmetic of
the engine is exact on the byte range, so it is embedded over `Nat`/`Int`;
the floating-point color-space conversions and distance weights are embedded
over `ℝ` (the engine's doubles carry no wrap-around semantics), and the
exact fractional scores of the grid detector over `ℚ`. -/

/-- RGBA pixel with byte channels. -/
structure Pixel where
  r : Nat
  g : Nat
  b : Nat
  a : Nat
deriving DecidableEq, Repr

/-- A pixel buffer: the flat RGBA byte array grouped into 4-byte pixels. -/
abbrev Buffer := List Pixel

/-- Reading pixel `p` of a buffer (`data[4p .. 4p+3]`). -/
def pixelAt (px : Buffer) (p : Nat) : Pixel := px.getD p ⟨0, 0, 0, 0⟩

/-- `getPixel` from `snap.ts`/`detect.ts`: RGBA at `(x, y)`. -/
def getPixel (px : Buffer) (width x y : Nat) : Pixel := pixelAt px (y * width + x)

/-- `Math.round (num / den)` for natural `num` and positive `den`:
round half up, `⌊num/den + 1/2⌋`. -/
def roundDiv (num den : Nat) : Nat := (2 * num + den) / (2 * den)

/-- `Math.round` of a nonnegative real, as a natural number (round half up). -/
noncomputable def jsRound (x : ℝ) : Nat := (⌊x + 1/2⌋).toNat

/-- The rounded per-channel average of two palette entries (R, G, B and A),
as specified for `mergePaletteColors`. -/
def averageEntry (a b : Pixel) : Pixel :=
  ⟨roundDiv (a.r + b.r) 2, roundDiv (a.g + b.g) 2,
   roundDiv (a.b + b.b) 2, roundDiv (a.a + b.a) 2⟩

/-! ## GridSnapper (`snap.ts`) -/

/-- `SnapResult` of `snap.ts`. -/
structure SnapResult where
  data : Buffer
  width : Nat
  height : Nat
deriving Repr

/-- One frequency-map entry of a snap block: a packed-RGB key together with
its pixel count and accumulated alpha (`{ count, r, g, b, a }` in the
source; the 24-bit packed key is injective on byte channels, so the key is
kept as the RGB triple). -/
structure FreqEntry where
  count : Nat
  r : Nat
  g : Nat
  b : Nat
  aSum : Nat
deriving DecidableEq, Repr

/-- Insert one pixel into the block's frequency map.  JS `Map` iterates in
insertion order, so the map is an association list: an existing entry is
updated in place, a new entry is appended. -/
def freqInsert (m : List FreqEntry) (p : Pixel) : List FreqEntry :=
  match m with
  | [] => [⟨1, p.r, p.g, p.b, p.a⟩]
  | e :: rest =>
    if e.r = p.r ∧ e.g = p.g ∧ e.b = p.b then
      ⟨e.count + 1, e.r, e.g, e.b, e.aSum + p.a⟩ :: rest
    else
      e :: freqInsert rest p

/-- The in-bounds source cells `(dx, dy)` of the logical block `(lx, ly)`,
in the `dy`-outer/`dx`-inner iteration order of the source. -/
def blockCells (w h g lx ly : Nat) : List (Nat × Nat) :=
  (List.range g).flatMap fun dy =>
    (List.range g).filterMap fun dx =>
      if lx * g + dx < w ∧ ly * g + dy < h then some (dx, dy) else none

/-- The block's frequency map (insertion order). -/
def blockFreq (px : Buffer) (w h g lx ly : Nat) : List FreqEntry :=
  (blockCells w h g lx ly).foldl
    (fun m c => freqInsert m (getPixel px w (lx * g + c.1) (ly * g + c.2))) []

/-- Majority vote: the first frequency entry holding strictly more than 50%
of the block's `g*g` pixels (`entry.count > blockPixelCount * 0.5`), with
its alpha averaged (`Math.round(entry.a / entry.count)`). -/
def majorityFind (m : List FreqEntry) (bpc : Nat) : Option Pixel :=
  match m with
  | [] => none
  | e :: rest =>
    if 2 * e.count > bpc then some ⟨e.r, e.g, e.b, roundDiv e.aSum e.count⟩
    else majorityFind rest bpc

/-- Weight of a cell in the weighted-center fallback:
`1 / (1 + sqrt(distX² + distY²))` with the block center at
`halfBlock = (g-1)/2` on each axis. -/
noncomputable def cellWeight (g dx dy : Nat) : ℝ :=
  1 / (1 + Real.sqrt (((dx : ℝ) - ((g : ℝ) - 1) / 2) ^ 2 +
                      ((dy : ℝ) - ((g : ℝ) - 1) / 2) ^ 2))

/-- The weighted-center fallback output of a block: per-channel weighted
average over all in-bounds pixels of the block, rounded. -/
noncomputable def blockFallback (px : Buffer) (w h g lx ly : Nat) : Pixel :=
  let cells := blockCells w h g lx ly
  let tw := (cells.map fun c => cellWeight g c.1 c.2).sum
  let ch : (Pixel → Nat) → ℝ := fun f =>
    (cells.map fun c => (f (getPixel px w (lx * g + c.1) (ly * g + c.2)) : ℝ) *
      cellWeight g c.1 c.2).sum
  if 0 < tw then
    ⟨jsRound (ch Pixel.r / tw), jsRound (ch Pixel.g / tw),
     jsRound (ch Pixel.b / tw), jsRound (ch Pixel.a / tw)⟩
  else ⟨0, 0, 0, 0⟩

/-- The output pixel of one logical block: majority vote, otherwise the
weighted-center fallback. -/
noncomputable def snapBlock (px : Buffer) (w h g lx ly : Nat) : Pixel :=
  match majorityFind (blockFreq px w h g lx ly) (g * g) with
  | some p => p
  | none => blockFallback px w h g lx ly

/-- `snapToGrid` of `snap.ts`.  Throws on `gridSize < 1` and on logical
dimensions `≤ 0`; `gridSize = 1` returns a fresh copy of the source. -/
noncomputable def snapToGrid (source : Buffer) (sourceWidth sourceHeight gridSize : Nat) :
    Except String SnapResult :=
  if gridSize < 1 then
    .error "gridSize must be >= 1"
  else if gridSize = 1 then
    .ok ⟨source, sourceWidth, sourceHeight⟩
  else
    let logicalWidth := sourceWidth / gridSize
    let logicalHeight := sourceHeight / gridSize
    if logicalWidth = 0 ∨ logicalHeight = 0 then
      .error "grid size too large for image"
    else
      .ok ⟨(List.range logicalHeight).flatMap fun ly =>
             (List.range logicalWidth).map fun lx =>
               snapBlock source sourceWidth sourceHeight gridSize lx ly,
           logicalWidth, logicalHeight⟩

/-! ## ColorSpace (`distance.ts`) -/

/-- A CIELAB triple `(L, a, b)`. -/
abbrev Lab := ℝ × ℝ × ℝ

/-- sRGB gamma expansion of one byte channel (`rLin > 0.04045 ? ((rLin +
0.055)/1.055)^2.4 : rLin/12.92` after dividing by 255). -/
noncomputable def srgbLinearize (c : Nat) : ℝ :=
  let v : ℝ := (c : ℝ) / 255
  if v > 0.04045 then ((v + 0.055) / 1.055) ^ (2.4 : ℝ) else v / 12.92

/-- The piecewise cube-root/linear XYZ→LAB transform
(`t > 0.008856 ? cbrt t : (903.3 t + 16)/116`); inputs here are
nonnegative, where `Math.cbrt` agrees with the real power `t^(1/3)`. -/
noncomputable def labF (t : ℝ) : ℝ :=
  if t > 0.008856 then t ^ ((1 : ℝ) / 3) else (903.3 * t + 16) / 116

/-- `rgbToLab` of `distance.ts`: gamma expansion, sRGB→XYZ matrix (D65),
white-point normalization, piecewise transform. -/
noncomputable def rgbToLab (r g b : Nat) : Lab :=
  let rLin := srgbLinearize r
  let gLin := srgbLinearize g
  let bLin := srgbLinearize b
  let x := (rLin * 0.4124564 + gLin * 0.3575761 + bLin * 0.1804375) / 0.95047
  let y := (rLin * 0.2126729 + gLin * 0.7151522 + bLin * 0.0721750) / 1.00000
  let z := (rLin * 0.0193339 + gLin * 0.1191920 + bLin * 0.9503041) / 1.08883
  (116 * labF y - 16, 500 * (labF x - labF y), 200 * (labF y - labF z))

/-- `deltaE` of `distance.ts`: Euclidean distance in CIELAB (CIE76). -/
noncomputable def deltaE (lab1 lab2 : Lab) : ℝ :=
  Real.sqrt ((lab1.1 - lab2.1) ^ 2 + (lab1.2.1 - lab2.2.1) ^ 2 +
             (lab1.2.2 - lab2.2.2) ^ 2)

/-! ## First-minimum scan

Both `nearestPaletteIndex` (remap), the medium-cut pixel mapping and the
k-means assignment scan a list of distances with `bestDist = Infinity`,
updating on a strict `<`: they return the first index attaining the
minimum.  `argminGo xs i bi bx` scans `xs` starting at index `i` carrying
the current best `(bi, bx)`. -/

def argminGo {α : Type} [LinearOrder α] : List α → Nat → Nat → α → Nat
  | [], _, bi, _ => bi
  | x :: xs, i, bi, bx => if x < bx then argminGo xs (i + 1) i x else argminGo xs (i + 1) bi bx

/-- First index of a minimal element (0 on the empty list, matching the JS
initial `bestIndex = 0`). -/
def argminFirst {α : Type} [LinearOrder α] : List α → Nat
  | [] => 0
  | x :: xs => argminGo xs 1 0 x

/-! ## PaletteRemapper (`remap.ts`) -/

/-- `nearestPaletteIndex` of `remap.ts`: index of the nearest palette color
by Delta E in CIELAB, first index winning ties. -/
noncomputable def nearestPaletteIndex (r g b : Nat) (paletteLabs : List Lab) : Nat :=
  argminFirst (paletteLabs.map fun pl => deltaE (rgbToLab r g b) pl)

/-- `remapToPalette` of `remap.ts`: every opaque pixel takes the RGB of its
nearest palette entry but keeps its own alpha; fully transparent pixels
pass through as `(0,0,0,0)`; an empty palette yields an all-zero buffer. -/
noncomputable def remapToPalette (data : Buffer) (palette : List Pixel) : Buffer :=
  if palette.length = 0 then
    List.replicate data.length ⟨0, 0, 0, 0⟩
  else
    let paletteLabs := palette.map fun c => rgbToLab c.r c.g c.b
    data.map fun p =>
      if p.a = 0 then ⟨0, 0, 0, 0⟩
      else
        let c := palette.getD (nearestPaletteIndex p.r p.g p.b paletteLabs) ⟨0, 0, 0, 0⟩
        ⟨c.r, c.g, c.b, p.a⟩

/-- `mergePaletteColors` of `remap.ts`.  Indices are JS numbers, embedded
as integers so that negative indices are representable.  `i == j` returns
a deep copy before any range check; otherwise out-of-range indices throw
`RangeError`; otherwise entry `j` is removed and entry `i` replaced by the
rounded per-channel average. -/
def mergePaletteColors (palette : List Pixel) (indexA indexB : ℤ) :
    Except String (List Pixel) :=
  if indexA = indexB then .ok palette
  else if indexA < 0 ∨ (palette.length : ℤ) ≤ indexA then .error "indexA out of bounds"
  else if indexB < 0 ∨ (palette.length : ℤ) ≤ indexB then .error "indexB out of bounds"
  else
    .ok ((List.range palette.length).filterMap fun (i : ℕ) =>
      if (i : ℤ) = indexB then none
      else if (i : ℤ) = indexA then
        some (averageEntry (palette.getD indexA.toNat ⟨0, 0, 0, 0⟩)
          (palette.getD indexB.toNat ⟨0, 0, 0, 0⟩))
      else some (palette.getD i ⟨0, 0, 0, 0⟩))

/-! ## Median-cut quantizer (`median-cut.ts`) -/

/-- `QuantizeResult`: palette, per-pixel palette-index bytes (the JS
`Uint8Array` stores indices mod 256) and the remapped RGBA buffer. -/
structure QuantizeResult where
  palette : List Pixel
  indexedData : List Nat
  remappedData : Buffer
deriving Repr

/-- `ColorEntry`: one distinct opaque RGB color with its pixel count. -/
structure ColorEntry where
  r : Nat
  g : Nat
  b : Nat
  count : Nat
deriving DecidableEq, Repr

/-- Insert one opaque pixel into the color histogram (JS `Map` keyed by the
packed RGB, iterated in insertion order: association list, update in place,
append new keys). -/
def histInsert (m : List ColorEntry) (p : Pixel) : List ColorEntry :=
  match m with
  | [] => [⟨p.r, p.g, p.b, 1⟩]
  | e :: rest =>
    if e.r = p.r ∧ e.g = p.g ∧ e.b = p.b then
      ⟨e.r, e.g, e.b, e.count + 1⟩ :: rest
    else
      e :: histInsert rest p

/-- Histogram of the distinct opaque colors of a buffer, in first-seen
order (transparent pixels are skipped). -/
def colorHistogram (data : Buffer) : List ColorEntry :=
  data.foldl (fun m p => if p.a = 0 then m else histInsert m p) []

/-- A median-cut bucket: its entries plus the cached population and
per-channel bounds computed by `makeBucket`/`computeBounds`. -/
structure Bucket where
  entries : List ColorEntry
  population : Nat
  rMin : Nat
  rMax : Nat
  gMin : Nat
  gMax : Nat
  bMin : Nat
  bMax : Nat
deriving Repr

/-- `makeBucket`: population and channel bounds of an entry list (bounds
start at `255`/`0` as in `computeBounds`). -/
def makeBucket (entries : List ColorEntry) : Bucket :=
  { entries := entries
    population := (entries.map ColorEntry.count).sum
    rMin := entries.foldl (fun m e => min m e.r) 255
    rMax := entries.foldl (fun m e => max m e.r) 0
    gMin := entries.foldl (fun m e => min m e.g) 255
    gMax := entries.foldl (fun m e => max m e.g) 0
    bMin := entries.foldl (fun m e => min m e.b) 255
    bMax := entries.foldl (fun m e => max m e.b) 0 }

/-- `bucketVolume`: product of channel ranges, each `max - min + 1`
(the JS subtraction is on plain numbers; on byte-channel entries
`min ≤ max`, so the truncated `Nat` subtraction agrees). -/
def bucketVolume (b : Bucket) : Nat :=
  (b.rMax - b.rMin + 1) * (b.gMax - b.gMin + 1) * (b.bMax - b.bMin + 1)

/-- Find the index of the bucket with the largest `population * volume`
among buckets with at least two entries (`bestScore` starts at `-1`, so the
first eligible bucket always wins; later buckets win on a strict `>`). -/
def findBestBucket (buckets : List Bucket) : Option Nat :=
  (buckets.foldl
    (fun (st : Nat × Option (Nat × Nat)) b =>
      let i := st.1
      let score := b.population * bucketVolume b
      if b.entries.length < 2 then (i + 1, st.2)
      else
        match st.2 with
        | none => (i + 1, some (i, score))
        | some (bi, bs) => (i + 1, if score > bs then some (i, score) else some (bi, bs)))
    (0, none)).2.map Prod.fst

/-- Channel selector chosen by the largest range (`r` wins ties with `g`
and `b`; `g` wins ties with `b`). -/
def sortChannelOf (b : Bucket) : ColorEntry → Nat :=
  let rRange := b.rMax - b.rMin
  let gRange := b.gMax - b.gMin
  let bRange := b.bMax - b.bMin
  if rRange ≥ gRange ∧ rRange ≥ bRange then ColorEntry.r
  else if gRange ≥ bRange then ColorEntry.g
  else ColorEntry.b

/-- Stable insertion into a list sorted ascending by `key` (a later element
goes after existing equal keys, as the stable JS `Array.sort` does). -/
def insertAsc {α : Type} (key : α → Nat) (x : α) : List α → List α
  | [] => [x]
  | y :: ys => if key y ≤ key x then y :: insertAsc key x ys else x :: y :: ys

/-- Stable sort ascending by `key` (insertion sort; JS `Array.sort` with a
consistent numeric comparator is stable). -/
def sortAscBy {α : Type} (key : α → Nat) (l : List α) : List α :=
  l.foldl (fun acc x => insertAsc key x acc) []

/-- The weighted-median split position: the first `i < entries.length - 1`
with cumulative population `≥ halfPop` gives `i + 1`; a fallthrough (or a
hit at `i = 0` … which already gives `1`) never produces `0` because of the
`if (splitIdx === 0) splitIdx = 1` guard. -/
def splitIndex (counts : List Nat) (pop : Nat) : Nat :=
  match (List.range (counts.length - 1)).find? fun i =>
      2 * ((counts.take (i + 1)).sum) ≥ pop with
  | some i => i + 1
  | none => 1

/-- One split of the loop body: pick the best bucket, sort its entries
along the widest channel, split at the weighted median.  Returns `none`
when no bucket can be split. -/
def splitStep (buckets : List Bucket) : Option (List Bucket) :=
  match findBestBucket buckets with
  | none => none
  | some idx =>
    let bucket := buckets.getD idx (makeBucket [])
    let sorted := sortAscBy (sortChannelOf bucket) bucket.entries
    let si := splitIndex (sorted.map ColorEntry.count) bucket.population
    some ((buckets.set idx (makeBucket (sorted.take si))) ++ [makeBucket (sorted.drop si)])

/-- The `while (buckets.length < effectiveTarget)` split loop.  Each
iteration grows the bucket list by one, so `effectiveTarget` iterations of
fuel are enough to reach the loop's fixed point. -/
def splitLoop (effectiveTarget : Nat) : Nat → List Bucket → List Bucket
  | 0, buckets => buckets
  | fuel + 1, buckets =>
    if buckets.length < effectiveTarget then
      match splitStep buckets with
      | none => buckets
      | some buckets' => splitLoop effectiveTarget fuel buckets'
    else buckets

/-- A bucket's palette entry: population-weighted mean RGB, alpha 255. -/
def bucketAverage (b : Bucket) : Pixel :=
  let total := (b.entries.map ColorEntry.count).sum
  ⟨roundDiv ((b.entries.map fun e => e.r * e.count).sum) total,
   roundDiv ((b.entries.map fun e => e.g * e.count).sum) total,
   roundDiv ((b.entries.map fun e => e.b * e.count).sum) total, 255⟩

/-- Index of the nearest palette color by squared Euclidean RGB distance
(first index wins ties, `bestDist` starts at `Infinity`). -/
def nearestByRGB (p : Pixel) (palette : List Pixel) : Nat :=
  argminFirst (palette.map fun c =>
    ((p.r : ℤ) - c.r) ^ 2 + ((p.g : ℤ) - c.g) ^ 2 + ((p.b : ℤ) - c.b) ^ 2)

/-- The bucket list built by the split loop of `medianCutQuantize`
(`effectiveTarget = min(targetColors, uniqueCount)`; the loop adds one
bucket per iteration, so `effectiveTarget` rounds of fuel reach its fixed
point). -/
def medianCutBuckets (data : Buffer) (targetColors : Nat) : List Bucket :=
  splitLoop (min targetColors (colorHistogram data).length)
    (min targetColors (colorHistogram data).length)
    [makeBucket (colorHistogram data)]

/-- The median-cut palette: one population-weighted average per bucket. -/
def medianCutPalette (data : Buffer) (targetColors : Nat) : List Pixel :=
  (medianCutBuckets data targetColors).map bucketAverage

/-- `medianCutQuantize` of `median-cut.ts`. -/
def medianCutQuantize (data : Buffer) (width height targetColors : Nat) :
    QuantizeResult :=
  if targetColors = 0 then
    ⟨[], List.replicate (width * height) 0, List.replicate data.length ⟨0, 0, 0, 0⟩⟩
  else if (colorHistogram data).length = 0 then
    ⟨[], List.replicate (width * height) 0, List.replicate data.length ⟨0, 0, 0, 0⟩⟩
  else
    ⟨medianCutPalette data targetColors,
     (List.range (width * height)).map fun p =>
       if (pixelAt data p).a = 0 then 0
       else nearestByRGB (pixelAt data p) (medianCutPalette data targetColors) % 256,
     (List.range (width * height)).map fun p =>
       if (pixelAt data p).a = 0 then ⟨0, 0, 0, 0⟩
       else
         let c := (medianCutPalette data targetColors).getD
           (nearestByRGB (pixelAt data p) (medianCutPalette data targetColors)) ⟨0, 0, 0, 0⟩
         ⟨c.r, c.g, c.b, 255⟩⟩

/-! ## Octree quantizer (`quantize.ts`)

The mutable `OctreeNode` graph is embedded as a functional tree: `nil`
stands for a `null` child slot, every real node carries its color sums,
pixel count, leaf flag and its 8 child slots.  The JS `depth` field always
equals the node's distance from the root, so it is represented by path
length rather than stored. -/

inductive ONode where
  | nil : ONode
  | node (rSum gSum bSum pixelCount : Nat) (isLeaf : Bool) (children : List ONode) : ONode
deriving Repr

/-- Whether a child slot is `null`. -/
def ONode.isNil : ONode → Bool
  | .nil => true
  | .node _ _ _ _ _ _ => false

/-- The node's own accumulated red sum (0 on `nil`). -/
def ONode.rSumF : ONode → Nat
  | .nil => 0
  | .node rs _ _ _ _ _ => rs

/-- The node's own accumulated green sum. -/
def ONode.gSumF : ONode → Nat
  | .nil => 0
  | .node _ gs _ _ _ _ => gs

/-- The node's own accumulated blue sum. -/
def ONode.bSumF : ONode → Nat
  | .nil => 0
  | .node _ _ bs _ _ _ => bs

/-- The node's own pixel count. -/
def ONode.cntF : ONode → Nat
  | .nil => 0
  | .node _ _ _ pc _ _ => pc

/-- The node's leaf flag. -/
def ONode.leafF : ONode → Bool
  | .nil => false
  | .node _ _ _ _ lf _ => lf

/-- The node's child list (empty on `nil`). -/
def ONode.childrenF : ONode → List ONode
  | .nil => []
  | .node _ _ _ _ _ ch => ch

/-- `createNode`: fresh node with 8 `null` children. -/
def createONode (isLeaf : Bool) : ONode :=
  .node 0 0 0 0 isLeaf (List.replicate 8 .nil)

/-- `childIndex` of `quantize.ts`, taking `bit = 7 - depth` directly:
`(((r >> bit) & 1) << 2) | (((g >> bit) & 1) << 1) | ((b >> bit) & 1)`. -/
def childIndex (r g b bit : Nat) : Nat :=
  (r / 2 ^ bit % 2) * 4 + (g / 2 ^ bit % 2) * 2 + b / 2 ^ bit % 2

/-- Number of non-`null` children. -/
def childCount (t : ONode) : Nat :=
  (t.childrenF.filter fun c => !c.isNil).length

mutual

/-- `countLeaves`: number of leaves of a subtree. -/
def countLeaves : ONode → Nat
  | .nil => 0
  | .node _ _ _ _ lf ch => if lf then 1 else countLeavesL ch

/-- `countLeaves` summed over a child list. -/
def countLeavesL : List ONode → Nat
  | [] => 0
  | c :: cs => countLeaves c + countLeavesL cs

end

mutual

/-- `countPaletteEntries`: leaves with pixels plus interior nodes with
pixels. -/
def countPaletteEntries : ONode → Nat
  | .nil => 0
  | .node _ _ _ pc lf ch =>
    if lf then (if pc > 0 then 1 else 0)
    else (if pc > 0 then 1 else 0) + countPaletteEntriesL ch

/-- `countPaletteEntries` summed over a child list. -/
def countPaletteEntriesL : List ONode → Nat
  | [] => 0
  | c :: cs => countPaletteEntries c + countPaletteEntriesL cs

end

mutual

/-- Sum of a per-node quantity over a whole subtree (used by
`collapseIntoSelf`/`absorbChild`, which gather a subtree's `rSum`, `gSum`,
`bSum` and `pixelCount` into one node). -/
def treeSum (f : ONode → Nat) : ONode → Nat
  | .nil => 0
  | .node rs gs bs pc lf ch => f (.node rs gs bs pc lf ch) + treeSumL f ch

/-- `treeSum` over a child list. -/
def treeSumL (f : ONode → Nat) : List ONode → Nat
  | [] => 0
  | c :: cs => treeSum f c + treeSumL f cs

end

mutual

/-- Number of non-`null` nodes of a subtree (Phase B fuel: every
absorption removes at least one node). -/
def nodeCount : ONode → Nat
  | .nil => 0
  | .node _ _ _ _ _ ch => 1 + nodeCountL ch

/-- `nodeCount` over a child list. -/
def nodeCountL : List ONode → Nat
  | [] => 0
  | c :: cs => nodeCount c + nodeCountL cs

end

/-- A path from the root: the list of child indices. -/
abbrev OPath := List Nat

/-- Node at a path (`none` when the path walks into a `null` slot). -/
def getNode : ONode → OPath → Option ONode
  | .nil, _ => none
  | .node rs gs bs pc lf ch, [] => some (.node rs gs bs pc lf ch)
  | .node _ _ _ _ _ ch, i :: rest => getNode (ch.getD i .nil) rest

/-- Rewrite the node at a path in place. -/
def modifyAt : ONode → OPath → (ONode → ONode) → ONode
  | t, [], f => f t
  | .nil, _ :: _, _ => .nil
  | .node rs gs bs pc lf ch, i :: rest, f =>
    .node rs gs bs pc lf (ch.set i (modifyAt (ch.getD i .nil) rest f))

/-- `collapseIntoSelf`: gather the whole subtree's color/pixel totals into
the node, null out all children, mark it a leaf. -/
def collapseNode (t : ONode) : ONode :=
  .node (treeSum ONode.rSumF t) (treeSum ONode.gSumF t) (treeSum ONode.bSumF t)
    (treeSum ONode.cntF t) true (List.replicate 8 .nil)

/-- `collapseIntoSelf` applied at a path. -/
def collapseAt (t : ONode) (p : OPath) : ONode := modifyAt t p collapseNode

/-- `absorbChild`: gather child `i`'s subtree totals into the node and null
out the child slot (the node keeps its leaf flag). -/
def absorbChildAt (t : ONode) (p : OPath) (i : Nat) : ONode :=
  modifyAt t p fun n =>
    match n with
    | .nil => .nil
    | .node rs gs bs pc lf ch =>
      let c := ch.getD i .nil
      .node (rs + treeSum ONode.rSumF c) (gs + treeSum ONode.gSumF c)
        (bs + treeSum ONode.bSumF c) (pc + treeSum ONode.cntF c) lf (ch.set i .nil)

/-- Mark the node at a path as a leaf (used when an absorption leaves no
children). -/
def setLeafAt (t : ONode) (p : OPath) : ONode :=
  modifyAt t p fun n =>
    match n with
    | .nil => .nil
    | .node rs gs bs pc _ ch => .node rs gs bs pc true ch

/-- `insertColor`, walking bits 7..1 (`levels` counts the remaining steps,
so `bit = levels` at each step and the final node sits at depth 7).  A
`null` slot is replaced by a fresh node, which is a leaf exactly when it is
created at depth 7. -/
def insertGo (r g b : Nat) : Nat → ONode → ONode
  | 0, t =>
    match t with
    | .nil => .nil
    | .node rs gs bs pc lf ch => .node (rs + r) (gs + g) (bs + b) (pc + 1) lf ch
  | levels + 1, t =>
    match t with
    | .nil => .nil
    | .node rs gs bs pc lf ch =>
      let i := childIndex r g b (levels + 1)
      let c := ch.getD i .nil
      let c' := match c with
        | .nil => createONode (levels = 0)
        | c => c
      .node rs gs bs pc lf (ch.set i (insertGo r g b levels c'))

/-- Insert every opaque pixel of a buffer into the octree. -/
def insertAll (data : Buffer) (t : ONode) : ONode :=
  data.foldl (fun t p => if p.a = 0 then t else insertGo p.r p.g p.b 7 t) t

mutual

/-- The interior (non-leaf) nodes of a subtree as paths, in the post-order
of `collectInteriors`/`findBest` (children first, then the node itself). -/
def interiorPaths : ONode → OPath → List OPath
  | .nil, _ => []
  | .node _ _ _ _ lf ch, p => if lf then [] else interiorPathsL ch p 0 ++ [p]

/-- `interiorPaths` over a child list starting at child index `i`. -/
def interiorPathsL : List ONode → OPath → Nat → List OPath
  | [], _, _ => []
  | c :: cs, p, i => interiorPaths c (p ++ [i]) ++ interiorPathsL cs p (i + 1)

end

/-- One step of Phase A: skip when the leaf target is already met, the
node is gone or already a leaf, or it has fewer than 2 leaves; collapse it
when that does not overshoot the target (`leafCount - reduction >=
targetColors`). -/
def phaseAStep (K : Nat) (st : ONode × Nat) (p : OPath) : ONode × Nat :=
  if st.2 ≤ K then st
  else
    match getNode st.1 p with
    | none => st
    | some n =>
      if n.leafF then st
      else
        let L := countLeaves n
        if L ≤ 1 then st
        else if K + (L - 1) ≤ st.2 then (collapseAt st.1 p, st.2 - (L - 1))
        else st

/-- Phase A at one depth: the interior nodes of the current tree at that
depth (the stale references the source sorts are exactly these nodes, since
earlier, deeper collapses only detach strictly deeper nodes), sorted stably
by ascending `countLeaves`, then processed in order. -/
def phaseADepth (K : Nat) (st : ONode × Nat) (d : Nat) : ONode × Nat :=
  let paths := (interiorPaths st.1 []).filter fun p => p.length = d
  let sorted := sortAscBy (fun p => countLeaves ((getNode st.1 p).getD .nil)) paths
  sorted.foldl (phaseAStep K) st

/-- Phase A: depths 6 down to 0 (`phaseAStep` is the identity once the
target is reached, matching the loop guard). -/
def phaseA (K : Nat) (st : ONode × Nat) : ONode × Nat :=
  [6, 5, 4, 3, 2, 1, 0].foldl (phaseADepth K) st

/-- `findBest` of Phase B: the first-visited shallowest node with at least
2 live children, in the same post-order traversal (strict `<` on depth, so
the first node found at the minimal depth wins). -/
def findBestPath (t : ONode) : Option OPath :=
  (interiorPaths t []).foldl
    (fun best p =>
      match getNode t p with
      | none => best
      | some n =>
        if 2 ≤ childCount n then
          match best with
          | none => some p
          | some q => if p.length < q.length then some p else some q
        else best)
    none

/-- Index of the non-`null` child with the fewest leaves (first index wins
ties, strict `<` with `minLeaves` starting at `Infinity`). -/
def minLeafChildIdx (n : ONode) : Option Nat :=
  ((n.childrenF.enum.foldl
    (fun best x =>
      if x.2.isNil then best
      else
        match best with
        | none => some (x.1, countLeaves x.2)
        | some (bi, bl) =>
          if countLeaves x.2 < bl then some (x.1, countLeaves x.2) else some (bi, bl))
    none)).map Prod.fst

/-- Phase B: repeatedly absorb the smallest child of the shallowest node
with ≥ 2 live children, until the true palette-entry count reaches the
target or no node can absorb.  The JS intermediate `leafCount` bookkeeping
is overwritten by `countPaletteEntries` before the next decision, so only
the recomputed count is carried.  Fuel: every absorption removes at least
one node, so `nodeCount` iterations suffice. -/
def phaseB (K : Nat) : Nat → ONode → Nat → ONode
  | 0, t, _ => t
  | fuel + 1, t, lc =>
    if lc ≤ K then t
    else
      match findBestPath t with
      | none => t
      | some p =>
        match minLeafChildIdx ((getNode t p).getD .nil) with
        | none => t
        | some i =>
          let t1 := absorbChildAt t p i
          let t2 := if childCount ((getNode t1 p).getD .nil) = 0 then setLeafAt t1 p else t1
          let eff := countPaletteEntries t2
          if eff ≤ K then t2 else phaseB K fuel t2 eff

mutual

/-- `assignPaletteIndices`: the palette in assignment (pre-)order — a node
with pixels contributes its rounded mean color (alpha 255) before its
children. -/
def paletteOf : ONode → List Pixel
  | .nil => []
  | .node rs gs bs pc lf ch =>
    (if pc > 0 then
      [⟨roundDiv rs pc, roundDiv gs pc, roundDiv bs pc, 255⟩]
     else []) ++ (if lf then [] else paletteOfL ch)

/-- `paletteOf` over a child list. -/
def paletteOfL : List ONode → List Pixel
  | [] => []
  | c :: cs => paletteOf c ++ paletteOfL cs

end

/-- The pixel-to-palette walk of Step 4 with the palette position of the
final node tracked: stop at the first leaf or `null` child slot; return
the node's assigned palette index (its position in `paletteOf` order), or
`none` when the final node holds no pixels (JS `paletteIndex = -1`). -/
def walkIdxGo (r g b : Nat) : Nat → ONode → Nat → Option Nat
  | _, .nil, _ => none
  | 0, .node _ _ _ pc _ _, acc => if pc > 0 then some acc else none
  | levels + 1, .node _ _ _ pc lf ch, acc =>
    if lf then (if pc > 0 then some acc else none)
    else
      let i := childIndex r g b (levels + 1)
      match ch.getD i .nil with
      | .nil => if pc > 0 then some acc else none
      | c =>
        walkIdxGo r g b levels c
          (acc + (if pc > 0 then 1 else 0) + countPaletteEntriesL (ch.take i))

/-- Palette index of an opaque pixel: walk from the root over bits 7..1. -/
def walkIdx (t : ONode) (r g b : Nat) : Option Nat := walkIdxGo r g b 7 t 0

/-- The octree after insertion of all opaque pixels. -/
def octreeInserted (data : Buffer) : ONode := insertAll data (createONode false)

/-- The reduced octree: Phase A then Phase B (Phase A starts from the
tracked leaf count, which equals `countLeaves` of the inserted tree). -/
def octreeRoot (data : Buffer) (targetColors : Nat) : ONode :=
  phaseB targetColors
    (nodeCount (phaseA targetColors (octreeInserted data, countLeaves (octreeInserted data))).1 + 1)
    (phaseA targetColors (octreeInserted data, countLeaves (octreeInserted data))).1
    (phaseA targetColors (octreeInserted data, countLeaves (octreeInserted data))).2

/-- `octreeQuantize` of `quantize.ts`: insert, reduce (Phase A then Phase
B), build palette, map pixels.  A `-1` palette index would be stored as
byte `255` in the `Uint8Array` and read `palette[-1] = undefined`, which
the clamped remap buffer records as RGB 0 with the unconditional alpha
255 (this case is unreachable for inserted colors). -/
def octreeQuantize (data : Buffer) (width height targetColors : Nat) :
    QuantizeResult :=
  if targetColors = 0 then
    ⟨[], List.replicate (width * height) 0, List.replicate data.length ⟨0, 0, 0, 0⟩⟩
  else
    ⟨paletteOf (octreeRoot data targetColors),
     (List.range (width * height)).map fun p =>
       if (pixelAt data p).a = 0 then 0
       else
         match walkIdx (octreeRoot data targetColors)
             (pixelAt data p).r (pixelAt data p).g (pixelAt data p).b with
         | some i => i % 256
         | none => 255,
     (List.range (width * height)).map fun p =>
       if (pixelAt data p).a = 0 then ⟨0, 0, 0, 0⟩
       else
         match walkIdx (octreeRoot data targetColors)
             (pixelAt data p).r (pixelAt data p).g (pixelAt data p).b with
         | some i =>
           let c := (paletteOf (octreeRoot data targetColors)).getD i ⟨0, 0, 0, 0⟩
           ⟨c.r, c.g, c.b, 255⟩
         | none => ⟨0, 0, 0, 255⟩⟩

/-! ## PaletteRefiner (`refine.ts`) -/

/-- `|a - b|` on naturals. -/
def natDist (a b : Nat) : Nat := max a b - min a b

/-- The assignment step of one k-means iteration: each opaque pixel joins
the nearest palette entry by Delta E (first index wins ties); transparent
pixels keep their (never written, hence zero) assignment slot. -/
noncomputable def kmeansAssign (data : Buffer) (pixelCount : Nat)
    (palette : List Pixel) : List Nat :=
  let paletteLabs := palette.map fun c => rgbToLab c.r c.g c.b
  (List.range pixelCount).map fun p =>
    if (pixelAt data p).a = 0 then 0
    else
      argminFirst (paletteLabs.map fun pl =>
        deltaE (rgbToLab (pixelAt data p).r (pixelAt data p).g (pixelAt data p).b) pl)

/-- Pixels of the buffer assigned to cluster `c` (opaque only). -/
def clusterPixels (data : Buffer) (pixelCount : Nat) (asg : Nat → Nat) (c : Nat) :
    List Nat :=
  (List.range pixelCount).filter fun p => (pixelAt data p).a ≠ 0 ∧ asg p = c

/-- The number of opaque pixels assigned to cluster `c`. -/
def clusterCount (data : Buffer) (pixelCount : Nat) (asg : Nat → Nat) (c : Nat) : Nat :=
  (clusterPixels data pixelCount asg c).length

/-- A per-channel sum over the opaque pixels assigned to cluster `c`. -/
def clusterSum (data : Buffer) (pixelCount : Nat) (asg : Nat → Nat) (c : Nat)
    (f : Pixel → Nat) : Nat :=
  ((clusterPixels data pixelCount asg c).map fun p => f (pixelAt data p)).sum

/-- The update step of one k-means iteration: every cluster with at least
one assigned opaque pixel becomes the rounded mean RGB of its pixels (alpha
255); a cluster with no assigned pixels keeps its previous color.  The
second component reports convergence: no updated channel moved by more
than 1. -/
def kmeansUpdate (data : Buffer) (pixelCount : Nat) (palette : List Pixel)
    (asg : Nat → Nat) : List Pixel × Bool :=
  (palette.enum.map fun e =>
    if clusterCount data pixelCount asg e.1 = 0 then e.2
    else
      ⟨roundDiv (clusterSum data pixelCount asg e.1 Pixel.r) (clusterCount data pixelCount asg e.1),
       roundDiv (clusterSum data pixelCount asg e.1 Pixel.g) (clusterCount data pixelCount asg e.1),
       roundDiv (clusterSum data pixelCount asg e.1 Pixel.b) (clusterCount data pixelCount asg e.1),
       255⟩,
   palette.enum.all fun e =>
    clusterCount data pixelCount asg e.1 = 0 ∨
      (natDist (roundDiv (clusterSum data pixelCount asg e.1 Pixel.r)
          (clusterCount data pixelCount asg e.1)) e.2.r ≤ 1 ∧
       natDist (roundDiv (clusterSum data pixelCount asg e.1 Pixel.g)
          (clusterCount data pixelCount asg e.1)) e.2.g ≤ 1 ∧
       natDist (roundDiv (clusterSum data pixelCount asg e.1 Pixel.b)
          (clusterCount data pixelCount asg e.1)) e.2.b ≤ 1))

/-- The k-means iteration loop: assign, update, stop early on
convergence (the update is applied before the break). -/
noncomputable def kmeansLoop (data : Buffer) (pixelCount : Nat) :
    Nat → List Pixel → List Pixel
  | 0, palette => palette
  | fuel + 1, palette =>
    let asg := kmeansAssign data pixelCount palette
    let st := kmeansUpdate data pixelCount palette fun p => asg.getD p 0
    if st.2 then st.1 else kmeansLoop data pixelCount fuel st.1

/-- The refined palette after the k-means loop. -/
noncomputable def kmeansPalette (data : Buffer) (pixelCount : Nat)
    (initialPalette : List Pixel) (maxIterations : Nat) : List Pixel :=
  kmeansLoop data pixelCount maxIterations initialPalette

/-- The final-assignment nearest palette entry of pixel `p` by Delta E. -/
noncomputable def kmeansBest (data : Buffer) (palette : List Pixel) (p : Nat) : Nat :=
  argminFirst ((palette.map fun c => rgbToLab c.r c.g c.b).map fun pl =>
    deltaE (rgbToLab (pixelAt data p).r (pixelAt data p).g (pixelAt data p).b) pl)

/-- `refineWithKMeans` of `refine.ts` (default 3 iterations). -/
noncomputable def refineWithKMeans (data : Buffer) (width height : Nat)
    (initialPalette : List Pixel) (maxIterations : Nat := 3) : QuantizeResult :=
  if initialPalette.length = 0 then
    ⟨[], List.replicate (width * height) 0, List.replicate data.length ⟨0, 0, 0, 0⟩⟩
  else
    ⟨kmeansPalette data (width * height) initialPalette maxIterations,
     (List.range (width * height)).map fun p =>
       if (pixelAt data p).a = 0 then 0
       else kmeansBest data (kmeansPalette data (width * height) initialPalette maxIterations) p % 256,
     (List.range (width * height)).map fun p =>
       if (pixelAt data p).a = 0 then ⟨0, 0, 0, 0⟩
       else
         let c := (kmeansPalette data (width * height) initialPalette maxIterations).getD
           (kmeansBest data (kmeansPalette data (width * height) initialPalette maxIterations) p)
           ⟨0, 0, 0, 0⟩
         ⟨c.r, c.g, c.b, 255⟩⟩

/-! ## GridDetector (`detect.ts`) -/

/-- `GridDetectionResult` of `detect.ts` (scores are the engine's exact
fractions). -/
structure GridDetectionResult where
  gridSize : Nat
  confidence : ℚ
  candidates : List (Nat × ℚ)
  logicalWidth : Nat
  logicalHeight : Nat
deriving Repr

/-- `colorDistance`: sum of absolute RGB differences (alpha ignored). -/
def colorDistance (a b : Pixel) : Nat :=
  natDist a.r b.r + natDist a.g b.g + natDist a.b b.b

/-- Record a finished run in the histogram when its length is ≥ 2 (the JS
`Map` is an insertion-ordered association list). -/
def addRun (hist : List (Nat × Nat)) (rl : Nat) : List (Nat × Nat) :=
  if 2 ≤ rl then
    match hist.find? fun e => e.1 = rl with
    | some _ => hist.map fun e => if e.1 = rl then (e.1, e.2 + 1) else e
    | none => hist ++ [(rl, 1)]
  else hist

/-- Scan one row or column for maximal same-color runs: the anchor `prev`
is the first pixel of the current run and only moves when a run breaks. -/
def scanRun (hist0 : List (Nat × Nat)) (start : Pixel) (rest : List Pixel) :
    List (Nat × Nat) :=
  let st := rest.foldl
    (fun (st : List (Nat × Nat) × Nat × Pixel) cur =>
      if colorDistance st.2.2 cur < 30 then (st.1, st.2.1 + 1, st.2.2)
      else (addRun st.1 st.2.1, 1, cur))
    (hist0, 1, start)
  addRun st.1 st.2.1

/-- `runsBased` of `detect.ts`: horizontal runs per row, then vertical runs
per column. -/
def runsBased (px : Buffer) (w h : Nat) : List (Nat × Nat) :=
  let afterRows := (List.range h).foldl
    (fun hist y =>
      scanRun hist (getPixel px w 0 y) ((List.range (w - 1)).map fun k => getPixel px w (k + 1) y))
    []
  (List.range w).foldl
    (fun hist x =>
      scanRun hist (getPixel px w x 0) ((List.range (h - 1)).map fun k => getPixel px w x (k + 1)))
    afterRows

/-- `histogramMode`: the first key with the strictly largest count
(defaults to size 1 on an empty histogram). -/
def histogramMode (hist : List (Nat × Nat)) : Nat :=
  (hist.foldl (fun best e => if e.2 > best.2 then e else best) (1, 0)).1

/-- Sum `f` over `0, …, n-1`. -/
def sumRange (n : Nat) (f : Nat → Nat) : Nat := ((List.range n).map f).sum

/-- The positive multiples of `g` below `n` (the `for (c = g; c < n; c += g)`
boundary columns/rows). -/
def boundaryMultiples (g n : Nat) : List Nat :=
  (List.range n).filter fun c => 0 < c ∧ c % g = 0

/-- The horizontal gradient between pixels `(x, y)` and `(x+1, y)`. -/
def hGradAt (px : Buffer) (w y x : Nat) : Nat :=
  colorDistance (getPixel px w x y) (getPixel px w (x + 1) y)

/-- The vertical gradient between pixels `(x, y)` and `(x, y+1)`. -/
def vGradAt (px : Buffer) (w y x : Nat) : Nat :=
  colorDistance (getPixel px w x y) (getPixel px w x (y + 1))

/-- The total gradient energy of the image. -/
def totalGradient (px : Buffer) (w h : Nat) : Nat :=
  sumRange h (fun y => sumRange (w - 1) fun x => hGradAt px w y x) +
    sumRange (h - 1) (fun y => sumRange w fun x => vGradAt px w y x)

/-- The gradient energy on the column/row boundaries that are multiples of
`g`. -/
def edgeGridSum (px : Buffer) (w h g : Nat) : Nat :=
  sumRange h (fun y => ((boundaryMultiples g w).map fun c => hGradAt px w y (c - 1)).sum) +
    sumRange w (fun x => ((boundaryMultiples g h).map fun r => vGradAt px w (r - 1) x).sum)

/-- `edgeAwareScores` of `detect.ts`: for each candidate size, the fraction
of total gradient energy sitting exactly on grid boundaries.  A zero total
gradient scores every size in `[minG, maxG]` as 0. -/
def edgeAwareScores (px : Buffer) (w h : Nat) (minG maxG : Nat) :
    List (Nat × ℚ) :=
  if totalGradient px w h = 0 then
    (List.range (maxG + 1 - minG)).map fun k => (minG + k, (0 : ℚ))
  else
    (List.range (min maxG (max w h) + 1 - minG)).map fun k =>
      (minG + k, (edgeGridSum px w h (minG + k) : ℚ) / (totalGradient px w h : ℚ))

/-- JS `Set` insertion: append when not yet present. -/
def addCand (l : List Nat) (s : Nat) : List Nat := if s ∈ l then l else l ++ [s]

/-- Stable insertion into a list sorted descending by a rational key (a
later element goes after existing equal keys). -/
def insertDesc {α : Type} (key : α → ℚ) (x : α) : List α → List α
  | [] => [x]
  | y :: ys => if key x ≤ key y then y :: insertDesc key x ys else x :: y :: ys

/-- Stable sort descending by a rational key (the JS
`sort((a, b) => b[1] - a[1])` is stable). -/
def sortDescBy {α : Type} (key : α → ℚ) (l : List α) : List α :=
  l.foldl (fun acc x => insertDesc key x acc) []

/-- The normalizing run total (`|| 1` guards the empty histogram). -/
def detectTotalRuns (px : Buffer) (w h : Nat) : Nat :=
  if ((runsBased px w h).map Prod.snd).sum = 0 then 1
  else ((runsBased px w h).map Prod.snd).sum

/-- The candidate set: runs-histogram keys within `[2, max(w, h)]`, then the
edge-score keys, then size 1, deduplicated in insertion order. -/
def detectCandidates (px : Buffer) (w h : Nat) : List Nat :=
  ((((runsBased px w h).map Prod.fst).filter fun s => 2 ≤ s ∧ s ≤ max w h) ++
    (edgeAwareScores px w h 2 32).map Prod.fst ++ [1]).foldl addCand []

/-- The combined score of a candidate: 40% normalized runs votes plus 60%
edge-aware score. -/
def detectScore (px : Buffer) (w h s : Nat) : ℚ :=
  ((((runsBased px w h).find? fun e => e.1 = s).map Prod.snd).getD 0 : ℚ) /
      (detectTotalRuns px w h : ℚ) * (2 / 5) +
    ((((edgeAwareScores px w h 2 32).find? fun e => e.1 = s).map Prod.snd).getD 0) * (3 / 5)

/-- The top-3 candidates by combined score (stable descending sort). -/
def detectTop3 (px : Buffer) (w h : Nat) : List (Nat × ℚ) :=
  (sortDescBy Prod.snd ((detectCandidates px w h).map fun s => (s, detectScore px w h s))).take 3

/-- The winning grid size (`1` if the candidate list were empty). -/
def detectBestSize (px : Buffer) (w h : Nat) : Nat :=
  ((detectTop3 px w h).getD 0 (1, 0)).1

/-- The detector's confidence before the final clamp: runs-mode agreement,
score separation and best score, capped at 1. -/
def detectConfidence0 (px : Buffer) (w h : Nat) : ℚ :=
  min 1 ((if histogramMode (runsBased px w h) = detectBestSize px w h then 3 / 10 else 0) +
    (if 0 < ((detectTop3 px w h).getD 0 (1, 0)).2 then
      (((detectTop3 px w h).getD 0 (1, 0)).2 -
        (if 1 < (detectTop3 px w h).length then ((detectTop3 px w h).getD 1 (1, 0)).2 else 0)) /
        ((detectTop3 px w h).getD 0 (1, 0)).2
     else 0) * (1 / 2) +
    ((detectTop3 px w h).getD 0 (1, 0)).2 * (1 / 2))

/-- `detectGridSize` of `detect.ts`. -/
def detectGridSize (px : Buffer) (w h : Nat) : GridDetectionResult :=
  if w ≤ 1 ∨ h ≤ 1 then
    ⟨1, 1, [(1, 1)], w, h⟩
  else
    ⟨detectBestSize px w h, max 0 (min 1 (detectConfidence0 px w h)), detectTop3 px w h,
     w / detectBestSize px w h, h / detectBestSize px w h⟩

/-- Solid red, the first checkerboard color of the end-to-end scenario. -/
def redPx : Pixel := ⟨255, 0, 0, 255⟩

/-- Solid blue, the second checkerboard color of the end-to-end scenario. -/
def bluePx : Pixel := ⟨0, 0, 255, 255⟩

/-- The 12×12 source image: a 3×3 grid of solid 4×4 blocks, red and blue in
checkerboard order. -/
def checker12 : Buffer :=
  (List.range 12).flatMap fun y => (List.range 12).map fun x =>
    if (x / 4 + y / 4) % 2 = 0 then redPx else bluePx

/-- The 3×3 logical checkerboard the scenario should snap to. -/
def checker3 : Buffer :=
  (List.range 3).flatMap fun y => (List.range 3).map fun x =>
    if (x + y) % 2 = 0 then redPx else bluePx

/-! ## General helper lemmas -/

/-- Whether an engine call reported an error. -/
def isErr {α : Type} : Except String α → Bool
  | .error _ => true
  | .ok _ => false

theorem filterMap_some_eq_map {α β : Type} (g : α → β) (l : List α) :
    l.filterMap (fun x => some (g x)) = l.map g := by
  induction l with
  | nil => rfl
  | cons a tl ih => simp [List.filterMap_cons, ih]

theorem range_map_getD {α : Type} (l : List α) (d : α) :
    (List.range l.length).map (fun k => l.getD k d) = l := by
  induction l with
  | nil => rfl
  | cons a tl ih =>
    rw [List.length_cons, List.range_succ_eq_map, List.map_cons, List.map_map]
    refine congrArg (a :: ·) ?_
    have hc : ((fun k => (a :: tl).getD k d) ∘ Nat.succ) = fun k => tl.getD k d := by
      funext k; rfl
    rw [hc, ih]

theorem range_map_ite_set {α : Type} (l : List α) (i : Nat) (x d : α) :
    (List.range l.length).map (fun k => if k = i then x else l.getD k d) = l.set i x := by
  induction l generalizing i with
  | nil => simp
  | cons a tl ih =>
    rw [List.length_cons, List.range_succ_eq_map, List.map_cons, List.map_map]
    cases i with
    | zero =>
      rw [if_pos rfl, List.set_cons_zero]
      refine congrArg (x :: ·) ?_
      have hc : ((fun k => if k = 0 then x else (a :: tl).getD k d) ∘ Nat.succ) =
          fun k => tl.getD k d := by
        funext k; rfl
      rw [hc, range_map_getD]
    | succ i' =>
      rw [if_neg (by omega), List.set_cons_succ]
      have h0 : (a :: tl).getD 0 d = a := rfl
      rw [h0]
      refine congrArg (a :: ·) ?_
      have hc : ((fun k => if k = i' + 1 then x else (a :: tl).getD k d) ∘ Nat.succ) =
          fun k => if k = i' then x else tl.getD k d := by
        funext k
        by_cases hk : k = i'
        · simp [Function.comp, hk]
        · simp [Function.comp, hk, fun h => hk (Nat.succ_injective h)]
      rw [hc, ih i']

theorem filterMap_range_ite_eraseIdx {α : Type} (g : Nat → α) (n j : Nat) (hj : j < n) :
    (List.range n).filterMap (fun k => if k = j then none else some (g k)) =
      ((List.range n).map g).eraseIdx j := by
  induction n with
  | zero => omega
  | succ n ih =>
    rw [List.range_succ, List.filterMap_append, List.map_append]
    rcases Nat.lt_or_ge j n with h | h
    · rw [ih h, List.eraseIdx_append_of_lt_length (by simpa using h)]
      refine congrArg _ ?_
      simp [List.filterMap_cons, Nat.ne_of_gt h]
    · have hjn : j = n := by omega
      subst hjn
      rw [List.eraseIdx_append_of_length_le (by simp)]
      have h1 : ([j].filterMap fun k => if k = j then none else some (g k)) = [] := by
        simp [List.filterMap_cons]
      have h2 : ∀ k ∈ List.range j, (if k = j then none else some (g k)) = some (g k) := by
        intro k hk
        rw [List.mem_range] at hk
        simp [Nat.ne_of_lt hk]
      rw [h1, List.filterMap_congr h2, filterMap_some_eq_map]
      simp

/-! ## Claim C8: `mergePaletteColors` -/

/-- C8 (counterexample): with the out-of-range index pair `i = j = 5` on a
1-entry palette, `mergePaletteColors` silently returns an unmodified copy
instead of reporting an error, because the `i == j` shortcut precedes the
range checks. -/
theorem C8_counterexample :
    mergePaletteColors [⟨1, 2, 3, 4⟩] 5 5 = .ok [⟨1, 2, 3, 4⟩] ∧
      ¬ ((0 : ℤ) ≤ 5 ∧ (5 : ℤ) < ([(⟨1, 2, 3, 4⟩ : Pixel)].length : ℤ)) := by
  constructor
  · rfl
  · decide

/-- C8 (amended): `i == j` returns an unmodified copy of the palette even
when the index is out of range; for `i ≠ j` an error is reported exactly
when `i` or `j` lies outside `[0, palette.length)`; and for valid distinct
indices the result is the palette with entry `i` replaced by the rounded
per-channel average of entries `i` and `j` and entry `j` removed, all other
entries unchanged and in order. -/
theorem C8_mergePaletteColors_spec (palette : List Pixel) (i j : ℤ) :
    (i = j → mergePaletteColors palette i j = .ok palette) ∧
    (i ≠ j →
      (isErr (mergePaletteColors palette i j) = true ↔
        i < 0 ∨ (palette.length : ℤ) ≤ i ∨ j < 0 ∨ (palette.length : ℤ) ≤ j)) ∧
    (i ≠ j → 0 ≤ i → i < (palette.length : ℤ) → 0 ≤ j → j < (palette.length : ℤ) →
      mergePaletteColors palette i j =
        .ok ((palette.set i.toNat
          (averageEntry (palette.getD i.toNat ⟨0, 0, 0, 0⟩)
            (palette.getD j.toNat ⟨0, 0, 0, 0⟩))).eraseIdx j.toNat)) := by
  refine ⟨fun hij => ?_, fun hij => ?_, fun hij hi0 hilt hj0 hjlt => ?_⟩
  · simp [mergePaletteColors, hij]
  · unfold mergePaletteColors
    rw [if_neg hij]
    by_cases hA : i < 0 ∨ (palette.length : ℤ) ≤ i
    · rw [if_pos hA]
      simp [isErr]
      omega
    · rw [if_neg hA]
      by_cases hB : j < 0 ∨ (palette.length : ℤ) ≤ j
      · rw [if_pos hB]
        simp [isErr]
        omega
      · rw [if_neg hB]
        simp [isErr]
        omega
  · unfold mergePaletteColors
    rw [if_neg hij, if_neg (by omega), if_neg (by omega)]
    congr 1
    have hcong : ∀ k ∈ List.range palette.length,
        (if (k : ℤ) = j then none
         else if (k : ℤ) = i then
           some (averageEntry (palette.getD i.toNat ⟨0, 0, 0, 0⟩)
             (palette.getD j.toNat ⟨0, 0, 0, 0⟩))
         else some (palette.getD k ⟨0, 0, 0, 0⟩)) =
        (if k = j.toNat then none
         else some (if k = i.toNat then
             averageEntry (palette.getD i.toNat ⟨0, 0, 0, 0⟩)
               (palette.getD j.toNat ⟨0, 0, 0, 0⟩)
           else palette.getD k ⟨0, 0, 0, 0⟩)) := by
      intro k _
      by_cases hkj : k = j.toNat
      · rw [if_pos hkj, if_pos (by omega)]
      · rw [if_neg hkj, if_neg (by omega)]
        by_cases hki : k = i.toNat
        · rw [if_pos (by omega), if_pos hki]
        · rw [if_neg (by omega), if_neg hki]
    rw [List.filterMap_congr hcong,
      filterMap_range_ite_eraseIdx _ _ _ (by omega),
      range_map_ite_set]

/-- C8 (witness): merging entries 0 and 1 of a concrete 2-entry palette. -/
theorem C8_mergePaletteColors_spec_witness :
    mergePaletteColors [⟨10, 0, 0, 0⟩, ⟨20, 4, 0, 2⟩] 0 1 = .ok [⟨15, 2, 0, 1⟩] := by
  have h := (C8_mergePaletteColors_spec [⟨10, 0, 0, 0⟩, ⟨20, 4, 0, 2⟩] 0 1).2.2
    (by decide) (by decide) (by decide) (by decide) (by decide)
  rw [h]
  rfl

/-! ## Claim C5: `snapToGrid` error behavior -/

/-- C5 (counterexample): for a zero-sized source and `gridSize = 1`, the
grid size exceeds the source dimensions (the logical dimensions would be
0), yet `snapToGrid` returns a copy instead of an error, because the
`gridSize === 1` shortcut precedes the dimension check. -/
theorem C5_counterexample :
    snapToGrid [] 0 0 1 = Except.ok ⟨[], 0, 0⟩ ∧ (0 : Nat) < 1 := by
  exact ⟨rfl, Nat.zero_lt_one⟩

/-- C5 (amended): `snapToGrid` reports an error exactly when `gridSize < 1`
or when `gridSize ≥ 2` and it exceeds either source dimension (logical
dimensions 0); no partial result accompanies an error.  `gridSize = 1`
always returns a buffer value-equal to the source with unchanged
dimensions, even for zero-sized sources (the source builds it as a fresh
`Uint8ClampedArray` copy, which value semantics cannot distinguish). -/
theorem C5_snapToGrid_error_iff (source : Buffer) (w h g : Nat) :
    (isErr (snapToGrid source w h g) = true ↔
      (g < 1 ∨ (2 ≤ g ∧ (w < g ∨ h < g)))) ∧
    (g = 1 → snapToGrid source w h g = .ok ⟨source, w, h⟩) := by
  constructor
  · unfold snapToGrid
    rcases Nat.eq_zero_or_pos g with hg0 | hgpos
    · subst hg0
      simp [isErr]
    · rw [if_neg (by omega)]
      rcases Nat.eq_or_lt_of_le hgpos with hg1 | hg2
      · rw [if_pos hg1.symm]
        simp [isErr]
        omega
      · rw [if_neg (by omega)]
        have hwz : w / g = 0 ↔ w < g := Nat.div_eq_zero_iff (by omega)
        have hhz : h / g = 0 ↔ h < g := Nat.div_eq_zero_iff (by omega)
        by_cases hz : w / g = 0 ∨ h / g = 0
        · rw [if_pos hz]
          simp only [isErr, true_iff]
          rw [hwz, hhz] at hz
          omega
        · rw [if_neg hz]
          simp only [isErr, Bool.false_eq_true, false_iff]
          rw [hwz, hhz] at hz
          omega
  · intro hg
    subst hg
    rfl

/-- C5 (witness): a 1×1 source at `gridSize = 1` and an oversized
`gridSize = 3`. -/
theorem C5_snapToGrid_error_iff_witness :
    snapToGrid [⟨1, 2, 3, 4⟩] 1 1 1 = .ok ⟨[⟨1, 2, 3, 4⟩], 1, 1⟩ ∧
      (isErr (snapToGrid [⟨1, 2, 3, 4⟩] 1 1 3) = true ↔
        (3 < 1 ∨ (2 ≤ 3 ∧ (1 < 3 ∨ 1 < 3)))) :=
  ⟨(C5_snapToGrid_error_iff [⟨1, 2, 3, 4⟩] 1 1 1).2 rfl,
   (C5_snapToGrid_error_iff [⟨1, 2, 3, 4⟩] 1 1 3).1⟩

/-! ## Buffer access lemmas -/

theorem pixelAt_range_map (n p : Nat) (f : Nat → Pixel) (hp : p < n) :
    pixelAt ((List.range n).map f) p = f p := by
  unfold pixelAt
  rw [List.getD_eq_getElem?_getD, List.getElem?_map, List.getElem?_range hp]
  rfl

theorem pixelAt_default_of_le (data : Buffer) (p : Nat) (hp : data.length ≤ p) :
    pixelAt data p = ⟨0, 0, 0, 0⟩ := by
  unfold pixelAt
  exact List.getD_eq_default _ _ hp

theorem pixelAt_range_map_oob (n p : Nat) (f : Nat → Pixel) (hp : n ≤ p) :
    pixelAt ((List.range n).map f) p = ⟨0, 0, 0, 0⟩ := by
  apply pixelAt_default_of_le
  rw [List.length_map, List.length_range]
  exact hp

theorem pixelAt_replicate_oob (n p : Nat) (x : Pixel) (hp : n ≤ p) :
    pixelAt (List.replicate n x) p = ⟨0, 0, 0, 0⟩ := by
  apply pixelAt_default_of_le
  rw [List.length_replicate]
  exact hp

theorem pixelAt_mem_of_alpha_ne (data : Buffer) (p : Nat)
    (h : (pixelAt data p).a ≠ 0) : pixelAt data p ∈ data := by
  by_cases hp : p < data.length
  · unfold pixelAt
    rw [List.getD_eq_getElem?_getD, List.getElem?_eq_getElem hp]
    exact List.getElem_mem hp
  · exact absurd (congrArg Pixel.a (pixelAt_default_of_le data p (by omega))) h

theorem histInsert_ne_nil (m : List ColorEntry) (p : Pixel) : histInsert m p ≠ [] := by
  cases m with
  | nil => simp [histInsert]
  | cons e rest =>
    unfold histInsert
    split <;> simp

theorem colorHistogram_foldl_ne_nil (data : Buffer) (m : List ColorEntry) (hm : m ≠ []) :
    data.foldl (fun m p => if p.a = 0 then m else histInsert m p) m ≠ [] := by
  induction data generalizing m with
  | nil => exact hm
  | cons q rest ih =>
    rw [List.foldl_cons]
    apply ih
    by_cases hq : q.a = 0
    · rw [if_pos hq]; exact hm
    · rw [if_neg hq]; exact histInsert_ne_nil m q

theorem colorHistogram_ne_nil (data : Buffer) (p : Pixel) (hp : p ∈ data)
    (ha : p.a ≠ 0) : colorHistogram data ≠ [] := by
  unfold colorHistogram
  induction data with
  | nil => cases hp
  | cons q rest ih =>
    rw [List.foldl_cons]
    by_cases hq : q.a = 0
    · rw [if_pos hq]
      rcases List.mem_cons.mp hp with hpq | hpr
      · exact absurd (hpq ▸ ha) (by simp [hq])
      · exact ih hpr
    · rw [if_neg hq]
      exact colorHistogram_foldl_ne_nil rest _ (histInsert_ne_nil [] q)

/-! ## Claim C10: the quantizers force alpha 255 on opaque pixels -/

/-- C10: in the remapped buffers of `medianCutQuantize`, `octreeQuantize`
and `refineWithKMeans` (in their non-degenerate configurations: a positive
color target resp. a nonempty initial palette), every input pixel with
nonzero alpha — semi-transparent alphas 1..254 included — comes out with
alpha exactly 255, whereas `remapToPalette` preserves each pixel's own
alpha. -/
theorem C10_quantizers_force_alpha255 :
    (∀ (data : Buffer) (w h K p : Nat), 1 ≤ K → (pixelAt data p).a ≠ 0 → p < w * h →
      (pixelAt (medianCutQuantize data w h K).remappedData p).a = 255) ∧
    (∀ (data : Buffer) (w h K p : Nat), 1 ≤ K → (pixelAt data p).a ≠ 0 → p < w * h →
      (pixelAt (octreeQuantize data w h K).remappedData p).a = 255) ∧
    (∀ (data : Buffer) (w h it p : Nat) (pal : List Pixel), pal ≠ [] →
      (pixelAt data p).a ≠ 0 → p < w * h →
      (pixelAt (refineWithKMeans data w h pal it).remappedData p).a = 255) ∧
    (∀ (data : Buffer) (pal : List Pixel) (p : Nat), pal ≠ [] →
      (pixelAt (remapToPalette data pal) p).a = (pixelAt data p).a) := by
  refine ⟨?_, ?_, ?_, ?_⟩
  · intro data w h K p hK ha hp
    unfold medianCutQuantize
    have hne := colorHistogram_ne_nil data _ (pixelAt_mem_of_alpha_ne data p ha) ha
    rw [if_neg (by omega), if_neg (by simpa [List.length_eq_zero] using hne)]
    rw [pixelAt_range_map _ _ _ hp, if_neg ha]
  · intro data w h K p hK ha hp
    unfold octreeQuantize
    rw [if_neg (by omega)]
    rw [pixelAt_range_map _ _ _ hp, if_neg ha]
    cases walkIdx (octreeRoot data K)
        (pixelAt data p).r (pixelAt data p).g (pixelAt data p).b <;> rfl
  · intro data w h it p pal hpal ha hp
    unfold refineWithKMeans
    rw [if_neg (by simpa [List.length_eq_zero] using hpal)]
    rw [pixelAt_range_map _ _ _ hp, if_neg ha]
  · intro data pal p hpal
    unfold remapToPalette
    rw [if_neg (by simpa [List.length_eq_zero] using hpal)]
    by_cases hp : p < data.length
    · have : pixelAt (data.map fun q =>
          if q.a = 0 then (⟨0, 0, 0, 0⟩ : Pixel)
          else
            let c := pal.getD (nearestPaletteIndex q.r q.g q.b
              (pal.map fun c => rgbToLab c.r c.g c.b)) ⟨0, 0, 0, 0⟩
            ⟨c.r, c.g, c.b, q.a⟩) p =
          (fun q =>
          if q.a = 0 then (⟨0, 0, 0, 0⟩ : Pixel)
          else
            let c := pal.getD (nearestPaletteIndex q.r q.g q.b
              (pal.map fun c => rgbToLab c.r c.g c.b)) ⟨0, 0, 0, 0⟩
            ⟨c.r, c.g, c.b, q.a⟩) (pixelAt data p) := by
        unfold pixelAt
        rw [List.getD_eq_getElem?_getD, List.getElem?_map,
          List.getElem?_eq_getElem hp, List.getD_eq_getElem?_getD,
          List.getElem?_eq_getElem hp]
        rfl
      rw [this]
      by_cases ha : (pixelAt data p).a = 0
      · simp [ha]
      · simp only [if_neg ha]
    · rw [pixelAt_default_of_le data p (by omega),
        pixelAt_default_of_le _ p (by simpa using (by omega : data.length ≤ p))]

/-- C10 (witness): a semi-transparent pixel (alpha 128) through all three
quantizers and through `remapToPalette`. -/
theorem C10_quantizers_force_alpha255_witness :
    (pixelAt (medianCutQuantize [⟨10, 20, 30, 128⟩] 1 1 1).remappedData 0).a = 255 ∧
    (pixelAt (octreeQuantize [⟨10, 20, 30, 128⟩] 1 1 1).remappedData 0).a = 255 ∧
    (pixelAt (refineWithKMeans [⟨10, 20, 30, 128⟩] 1 1 [⟨1, 1, 1, 255⟩] 3).remappedData 0).a = 255 ∧
    (pixelAt (remapToPalette [⟨10, 20, 30, 128⟩] [⟨1, 1, 1, 255⟩]) 0).a =
      (pixelAt [⟨10, 20, 30, 128⟩] 0).a :=
  ⟨C10_quantizers_force_alpha255.1 [⟨10, 20, 30, 128⟩] 1 1 1 0 (by decide) (by decide) (by decide),
   C10_quantizers_force_alpha255.2.1 [⟨10, 20, 30, 128⟩] 1 1 1 0 (by decide) (by decide) (by decide),
   C10_quantizers_force_alpha255.2.2.1 [⟨10, 20, 30, 128⟩] 1 1 3 0 [⟨1, 1, 1, 255⟩]
     (by decide) (by decide) (by decide),
   C10_quantizers_force_alpha255.2.2.2 [⟨10, 20, 30, 128⟩] [⟨1, 1, 1, 255⟩] 0 (by decide)⟩

/-! ## Claim C9: `detectGridSize` result invariants -/

theorem mem_insertDesc {α : Type} (key : α → ℚ) (y x : α) (l : List α)
    (h : x ∈ insertDesc key y l) : x = y ∨ x ∈ l := by
  induction l with
  | nil => simpa [insertDesc] using h
  | cons z zs ih =>
    unfold insertDesc at h
    split at h
    · rcases List.mem_cons.mp h with hz | hrest
      · exact Or.inr (List.mem_cons.mpr (Or.inl hz))
      · rcases ih hrest with hy | hm
        · exact Or.inl hy
        · exact Or.inr (List.mem_cons.mpr (Or.inr hm))
    · rcases List.mem_cons.mp h with hy | hm
      · exact Or.inl hy
      · exact Or.inr hm

theorem mem_sortDescBy_aux {α : Type} (key : α → ℚ) (l : List α) (acc : List α)
    (x : α) (h : x ∈ l.foldl (fun acc x => insertDesc key x acc) acc) :
    x ∈ acc ∨ x ∈ l := by
  induction l generalizing acc with
  | nil => exact Or.inl h
  | cons z zs ih =>
    rw [List.foldl_cons] at h
    rcases ih _ h with hacc | hzs
    · rcases mem_insertDesc key z x acc hacc with hz | hacc'
      · exact Or.inr (List.mem_cons.mpr (Or.inl hz))
      · exact Or.inl hacc'
    · exact Or.inr (List.mem_cons.mpr (Or.inr hzs))

theorem mem_sortDescBy {α : Type} (key : α → ℚ) (l : List α) (x : α)
    (h : x ∈ sortDescBy key l) : x ∈ l := by
  rcases mem_sortDescBy_aux key l [] x h with hacc | hl
  · cases hacc
  · exact hl

theorem length_insertDesc {α : Type} (key : α → ℚ) (x : α) (l : List α) :
    (insertDesc key x l).length = l.length + 1 := by
  induction l with
  | nil => rfl
  | cons z zs ih =>
    unfold insertDesc
    split
    · simpa using ih
    · rfl

theorem length_sortDescBy_aux {α : Type} (key : α → ℚ) (l acc : List α) :
    (l.foldl (fun acc x => insertDesc key x acc) acc).length = acc.length + l.length := by
  induction l generalizing acc with
  | nil => rfl
  | cons z zs ih =>
    rw [List.foldl_cons, ih, length_insertDesc]
    simp only [List.length_cons]
    omega

theorem length_sortDescBy {α : Type} (key : α → ℚ) (l : List α) :
    (sortDescBy key l).length = l.length := by
  unfold sortDescBy
  rw [length_sortDescBy_aux]
  simp

theorem mem_foldl_addCand (l acc : List Nat) (x : Nat)
    (h : x ∈ l.foldl addCand acc) : x ∈ acc ∨ x ∈ l := by
  induction l generalizing acc with
  | nil => exact Or.inl h
  | cons z zs ih =>
    rw [List.foldl_cons] at h
    rcases ih _ h with hacc | hzs
    · unfold addCand at hacc
      split at hacc
      · exact Or.inl hacc
      · rcases List.mem_append.mp hacc with hacc' | hz
        · exact Or.inl hacc'
        · exact Or.inr (List.mem_cons.mpr (Or.inl (List.mem_singleton.mp hz)))
    · exact Or.inr (List.mem_cons.mpr (Or.inr hzs))

theorem mem_edgeAwareScores_le (px : Buffer) (w h minG maxG : Nat)
    (e : Nat × ℚ) (he : e ∈ edgeAwareScores px w h minG maxG) : minG ≤ e.1 := by
  simp only [edgeAwareScores] at he
  split at he
  · rcases List.mem_map.mp he with ⟨k, _, hk⟩
    subst hk
    exact Nat.le_add_right _ _
  · rcases List.mem_map.mp he with ⟨k, _, hk⟩
    subst hk
    exact Nat.le_add_right _ _

theorem one_mem_allCandidates (l : List Nat) (acc : List Nat) :
    1 ∈ acc ∨ 1 ∈ l → 1 ∈ l.foldl addCand acc := by
  induction l generalizing acc with
  | nil => intro h; rcases h with h | h; exact h; cases h
  | cons z zs ih =>
    intro h
    rw [List.foldl_cons]
    apply ih
    rcases h with hacc | hl
    · left
      unfold addCand
      split
      · exact hacc
      · exact List.mem_append.mpr (Or.inl hacc)
    · rcases List.mem_cons.mp hl with h1 | hzs
      · left
        subst h1
        unfold addCand
        split
        · assumption
        · exact List.mem_append.mpr (Or.inr (List.mem_singleton.mpr rfl))
      · right
        exact hzs

theorem one_mem_detectCandidates (px : Buffer) (w h : Nat) :
    1 ∈ detectCandidates px w h := by
  unfold detectCandidates
  exact one_mem_allCandidates _ [] (Or.inr (by simp))

theorem detectBestSize_pos (px : Buffer) (w h : Nat) : 1 ≤ detectBestSize px w h := by
  unfold detectBestSize detectTop3
  have h1 : (1, detectScore px w h 1) ∈
      (detectCandidates px w h).map fun s => (s, detectScore px w h s) :=
    List.mem_map_of_mem _ (one_mem_detectCandidates px w h)
  have hne : ((detectCandidates px w h).map fun s => (s, detectScore px w h s)) ≠ [] :=
    List.ne_nil_of_mem h1
  cases hs : sortDescBy Prod.snd
      ((detectCandidates px w h).map fun s => (s, detectScore px w h s)) with
  | nil =>
    exfalso
    have := length_sortDescBy (α := Nat × ℚ) Prod.snd
      ((detectCandidates px w h).map fun s => (s, detectScore px w h s))
    rw [hs] at this
    exact hne (List.length_eq_zero.mp this.symm)
  | cons x rest =>
    have hx : x ∈ (detectCandidates px w h).map fun s => (s, detectScore px w h s) :=
      mem_sortDescBy _ _ _ (hs ▸ List.mem_cons_self x rest)
    rcases List.mem_map.mp hx with ⟨s, hsmem, hxeq⟩
    have hgd : ((x :: rest).take 3).getD 0 (1, 0) = x := rfl
    rw [hgd, ← hxeq]
    rcases mem_foldl_addCand _ [] s hsmem with h0 | hL
    · cases h0
    · rcases List.mem_append.mp hL with hAB | h1'
      · rcases List.mem_append.mp hAB with hA | hB
        · have := (List.mem_filter.mp hA).2
          have h2 : 2 ≤ s := by
            have := of_decide_eq_true this
            exact this.1
          omega
        · rcases List.mem_map.mp hB with ⟨e, he, hes⟩
          have := mem_edgeAwareScores_le px w h 2 32 e he
          omega
      · have : s = 1 := List.mem_singleton.mp h1'
        omega

/-- C9: `detectGridSize` always produces a well-formed result: `gridSize ≥
1`, `confidence ∈ [0, 1]`, at most 3 ranked candidates, and logical
dimensions `⌊w / gridSize⌋`, `⌊h / gridSize⌋`; degenerate images (a
dimension ≤ 1) short-circuit to grid size 1 with confidence 1; and a
perfectly uniform image (zero total gradient) gives every edge-score
candidate the score 0 while the detector still returns a result. -/
theorem C9_detectGridSize_wellformed :
    (∀ (px : Buffer) (w h : Nat),
      1 ≤ (detectGridSize px w h).gridSize ∧
      0 ≤ (detectGridSize px w h).confidence ∧
      (detectGridSize px w h).confidence ≤ 1 ∧
      (detectGridSize px w h).candidates.length ≤ 3 ∧
      (detectGridSize px w h).logicalWidth = w / (detectGridSize px w h).gridSize ∧
      (detectGridSize px w h).logicalHeight = h / (detectGridSize px w h).gridSize) ∧
    (∀ (px : Buffer) (w h : Nat), w ≤ 1 ∨ h ≤ 1 →
      detectGridSize px w h = ⟨1, 1, [(1, 1)], w, h⟩) ∧
    (∀ (px : Buffer) (w h : Nat),
      (∀ x < w, ∀ y < h, ∀ x' < w, ∀ y' < h, getPixel px w x y = getPixel px w x' y') →
      ∀ e ∈ edgeAwareScores px w h 2 32, e.2 = 0) := by
  refine ⟨?_, ?_, ?_⟩
  · intro px w h
    unfold detectGridSize
    split
    · exact ⟨Nat.le_refl 1, by norm_num, by norm_num, by norm_num,
        (Nat.div_one w).symm, (Nat.div_one h).symm⟩
    · refine ⟨detectBestSize_pos px w h, le_max_left 0 _,
        max_le (by norm_num) (min_le_left 1 _), ?_, rfl, rfl⟩
      unfold detectTop3
      exact List.length_take_le 3 _
  · intro px w h hwh
    unfold detectGridSize
    rw [if_pos hwh]
  · intro px w h huni e he
    have hzero : ∀ (y x x' y' : Nat), x < w → y < h → x' < w → y' < h →
        colorDistance (getPixel px w x y) (getPixel px w x' y') = 0 := by
      intro y x x' y' hx hy hx' hy'
      rw [huni x hx y hy x' hx' y' hy']
      simp [colorDistance, natDist]
    have htot : totalGradient px w h = 0 := by
      unfold totalGradient
      have h1 : sumRange h (fun y => sumRange (w - 1) fun x => hGradAt px w y x) = 0 := by
        apply List.sum_eq_zero
        intro v hv
        rcases List.mem_map.mp hv with ⟨y, hym, hy⟩
        subst hy
        apply List.sum_eq_zero
        intro u hu
        rcases List.mem_map.mp hu with ⟨x, hxm, hx⟩
        subst hx
        rw [List.mem_range] at hym hxm
        exact hzero y x (x + 1) y (by omega) hym (by omega) hym
      have h2 : sumRange (h - 1) (fun y => sumRange w fun x => vGradAt px w y x) = 0 := by
        apply List.sum_eq_zero
        intro v hv
        rcases List.mem_map.mp hv with ⟨y, hym, hy⟩
        subst hy
        apply List.sum_eq_zero
        intro u hu
        rcases List.mem_map.mp hu with ⟨x, hxm, hx⟩
        subst hx
        rw [List.mem_range] at hym hxm
        exact hzero y x x (y + 1) hxm (by omega) hxm (by omega)
      rw [h1, h2]
    simp only [edgeAwareScores, htot, if_pos rfl] at he
    rcases List.mem_map.mp he with ⟨k, _, hk⟩
    subst hk
    rfl

/-- C9 (witness): a 2×2 uniform white image: grid size within bounds and
every edge score 0. -/
theorem C9_detectGridSize_wellformed_witness :
    1 ≤ (detectGridSize (List.replicate 4 ⟨255, 255, 255, 255⟩) 2 2).gridSize ∧
    detectGridSize (List.replicate 4 ⟨255, 255, 255, 255⟩) 2 1 = ⟨1, 1, [(1, 1)], 2, 1⟩ ∧
    ∀ e ∈ edgeAwareScores (List.replicate 4 ⟨255, 255, 255, 255⟩) 2 2 2 32, e.2 = 0 :=
  ⟨(C9_detectGridSize_wellformed.1 (List.replicate 4 ⟨255, 255, 255, 255⟩) 2 2).1,
   C9_detectGridSize_wellformed.2.1 (List.replicate 4 ⟨255, 255, 255, 255⟩) 2 1 (by decide),
   C9_detectGridSize_wellformed.2.2 (List.replicate 4 ⟨255, 255, 255, 255⟩) 2 2 (by decide)⟩

/-! ## Claim C6: `refineWithKMeans` invariants -/

theorem kmeansUpdate_length (data : Buffer) (pc : Nat) (pal : List Pixel)
    (asg : Nat → Nat) : (kmeansUpdate data pc pal asg).1.length = pal.length := by
  simp [kmeansUpdate]

theorem kmeansLoop_length (data : Buffer) (pc : Nat) :
    ∀ (fuel : Nat) (pal : List Pixel),
      (kmeansLoop data pc fuel pal).length = pal.length := by
  intro fuel
  induction fuel with
  | zero => intro pal; rfl
  | succ fuel ih =>
    intro pal
    simp only [kmeansLoop]
    split
    · exact kmeansUpdate_length data pc pal _
    · rw [ih]
      exact kmeansUpdate_length data pc pal _

theorem kmeansUpdate_keeps_empty_cluster (data : Buffer) (pc : Nat)
    (pal : List Pixel) (asg : Nat → Nat) (c : Nat)
    (hempty : (clusterPixels data pc asg c).length = 0) :
    (kmeansUpdate data pc pal asg).1.getD c ⟨0, 0, 0, 0⟩ = pal.getD c ⟨0, 0, 0, 0⟩ := by
  by_cases hc : c < pal.length
  · have hlen : (kmeansUpdate data pc pal asg).1.length = pal.length :=
      kmeansUpdate_length data pc pal asg
    rw [List.getD_eq_getElem?_getD, List.getElem?_eq_getElem (by omega),
      List.getD_eq_getElem?_getD, List.getElem?_eq_getElem hc]
    simp only [kmeansUpdate, List.getElem_map, List.getElem_enum, clusterCount, hempty]
    simp
  · rw [List.getD_eq_default _ _ (by rw [kmeansUpdate_length]; omega),
      List.getD_eq_default _ _ (by omega)]

/-- C6: the refiner never drops a palette slot — the output palette has the
input palette's length; a cluster that received no opaque pixels keeps its
previous color through the update step; and an empty input palette
immediately yields the empty result (empty palette, zeroed index array,
zeroed buffer of the input's length). -/
theorem C6_refineWithKMeans_invariants :
    (∀ (data : Buffer) (w h it : Nat) (pal : List Pixel),
      (refineWithKMeans data w h pal it).palette.length = pal.length) ∧
    (∀ (data : Buffer) (pc : Nat) (pal : List Pixel) (asg : Nat → Nat) (c : Nat),
      (clusterPixels data pc asg c).length = 0 →
      (kmeansUpdate data pc pal asg).1.getD c ⟨0, 0, 0, 0⟩ = pal.getD c ⟨0, 0, 0, 0⟩) ∧
    (∀ (data : Buffer) (w h it : Nat),
      refineWithKMeans data w h [] it =
        ⟨[], List.replicate (w * h) 0, List.replicate data.length ⟨0, 0, 0, 0⟩⟩) := by
  refine ⟨?_, kmeansUpdate_keeps_empty_cluster, ?_⟩
  · intro data w h it pal
    unfold refineWithKMeans
    by_cases hlen : pal.length = 0
    · rw [if_pos hlen]
      exact hlen.symm
    · rw [if_neg hlen]
      exact kmeansLoop_length data (w * h) it pal
  · intro data w h it
    rfl

/-- C6 (witness): a 2-entry palette in which cluster 1 receives no pixels
keeps its entry 1, evaluated on a concrete buffer. -/
theorem C6_refineWithKMeans_invariants_witness :
    (kmeansUpdate [⟨1, 2, 3, 255⟩] 1 [⟨5, 5, 5, 9⟩, ⟨7, 7, 7, 9⟩] (fun _ => 0)).1.getD 1
      ⟨0, 0, 0, 0⟩ = ⟨7, 7, 7, 9⟩ :=
  (C6_refineWithKMeans_invariants.2.1 [⟨1, 2, 3, 255⟩] 1 [⟨5, 5, 5, 9⟩, ⟨7, 7, 7, 9⟩]
    (fun _ => 0) 1 (by decide)).trans (by decide)

/-! ## Claim C7: `remapToPalette` idempotence

The first-minimum scan satisfies: the chosen index carries the minimal
value, and every earlier index carries a strictly larger value.  These two
properties determine the index uniquely, which is what makes a second
remap reproduce the first one's choices. -/

theorem argminGo_char {α : Type} [LinearOrder α] (d : α) :
    ∀ (xs : List α) (i bi : Nat) (bx : α),
      (argminGo xs i bi bx = bi ∧ ∀ k < xs.length, bx ≤ xs.getD k d) ∨
      (∃ k, k < xs.length ∧ argminGo xs i bi bx = i + k ∧ xs.getD k d < bx ∧
        (∀ m < xs.length, xs.getD k d ≤ xs.getD m d) ∧
        (∀ m < k, xs.getD k d < xs.getD m d)) := by
  intro xs
  induction xs with
  | nil =>
    intro i bi bx
    left
    exact ⟨rfl, by intro k hk; simp at hk⟩
  | cons x xs ih =>
    intro i bi bx
    unfold argminGo
    by_cases hx : x < bx
    · rw [if_pos hx]
      right
      rcases ih (i + 1) i x with ⟨heq, hall⟩ | ⟨k, hk, heq, hlt, hmin, hstrict⟩
      · refine ⟨0, by simp, by omega, hx, ?_, by omega⟩
        intro m hm
        cases m with
        | zero => exact le_refl _
        | succ m' => exact hall m' (by simpa using hm)
      · refine ⟨k + 1, by simpa using hk, by omega, lt_trans hlt hx, ?_, ?_⟩
        · intro m hm
          cases m with
          | zero => exact le_of_lt hlt
          | succ m' => exact hmin m' (by simpa using hm)
        · intro m hm
          cases m with
          | zero => exact hlt
          | succ m' => exact hstrict m' (by omega)
    · rw [if_neg hx]
      rcases ih (i + 1) bi bx with ⟨heq, hall⟩ | ⟨k, hk, heq, hlt, hmin, hstrict⟩
      · left
        refine ⟨heq, ?_⟩
        intro m hm
        cases m with
        | zero => exact le_of_not_lt hx
        | succ m' => exact hall m' (by simpa using hm)
      · right
        refine ⟨k + 1, by simpa using hk, by omega, hlt, ?_, ?_⟩
        · intro m hm
          cases m with
          | zero => exact le_of_lt (lt_of_lt_of_le hlt (le_of_not_lt hx))
          | succ m' => exact hmin m' (by simpa using hm)
        · intro m hm
          cases m with
          | zero => exact lt_of_lt_of_le hlt (le_of_not_lt hx)
          | succ m' => exact hstrict m' (by omega)

theorem argminFirst_spec {α : Type} [LinearOrder α] (l : List α) (d : α)
    (hl : l ≠ []) :
    argminFirst l < l.length ∧
    (∀ m < l.length, l.getD (argminFirst l) d ≤ l.getD m d) ∧
    (∀ m < argminFirst l, l.getD (argminFirst l) d < l.getD m d) := by
  cases l with
  | nil => exact absurd rfl hl
  | cons x xs =>
    have hred : argminFirst (x :: xs) = argminGo xs 1 0 x := rfl
    rw [hred]
    rcases argminGo_char d xs 1 0 x with ⟨heq, hall⟩ | ⟨k, hk, heq, hlt, hmin, hstrict⟩
    · rw [heq]
      refine ⟨by simp, ?_, by omega⟩
      intro m hm
      cases m with
      | zero => exact le_refl _
      | succ m' => exact hall m' (by simpa using hm)
    · rw [heq]
      have hsucc : (x :: xs).getD (1 + k) d = xs.getD k d := by
        rw [Nat.add_comm]
        rfl
      rw [hsucc]
      refine ⟨by simp only [List.length_cons]; omega, ?_, ?_⟩
      · intro m hm
        cases m with
        | zero => exact le_of_lt hlt
        | succ m' => exact hmin m' (by simpa using hm)
      · intro m hm
        cases m with
        | zero => exact hlt
        | succ m' => exact hstrict m' (by omega)

theorem argminFirst_unique {α : Type} [LinearOrder α] (l : List α) (d : α)
    (j : Nat) (hj : j < l.length)
    (hmin : ∀ m < l.length, l.getD j d ≤ l.getD m d)
    (hstrict : ∀ m < j, l.getD j d < l.getD m d) : argminFirst l = j := by
  have hl : l ≠ [] := by
    intro hnil
    rw [hnil] at hj
    simp at hj
  obtain ⟨hlt, hmin', hstrict'⟩ := argminFirst_spec l d hl
  rcases lt_trichotomy (argminFirst l) j with hlt2 | heq | hgt
  · exact absurd (hmin' _ hj) (not_le_of_lt (hstrict _ hlt2))
  · exact heq
  · exact absurd (hmin _ hlt) (not_le_of_lt (hstrict' _ hgt))

theorem deltaE_nonneg (x y : Lab) : 0 ≤ deltaE x y := Real.sqrt_nonneg _

theorem deltaE_self (x : Lab) : deltaE x x = 0 := by
  simp [deltaE]

theorem deltaE_eq_zero_iff (x y : Lab) : deltaE x y = 0 ↔ x = y := by
  constructor
  · intro h
    unfold deltaE at h
    have hnn : 0 ≤ (x.1 - y.1) ^ 2 + (x.2.1 - y.2.1) ^ 2 + (x.2.2 - y.2.2) ^ 2 := by
      positivity
    have hsum : (x.1 - y.1) ^ 2 + (x.2.1 - y.2.1) ^ 2 + (x.2.2 - y.2.2) ^ 2 = 0 := by
      have hsq := Real.sq_sqrt hnn
      rw [h] at hsq
      simpa using hsq.symm
    have e1 : x.1 - y.1 = 0 := by
      have hp : (x.1 - y.1) ^ 2 = 0 := by
        nlinarith [sq_nonneg (x.1 - y.1), sq_nonneg (x.2.1 - y.2.1), sq_nonneg (x.2.2 - y.2.2)]
      exact (pow_eq_zero_iff two_ne_zero).mp hp
    have e2 : x.2.1 - y.2.1 = 0 := by
      have hp : (x.2.1 - y.2.1) ^ 2 = 0 := by
        nlinarith [sq_nonneg (x.1 - y.1), sq_nonneg (x.2.1 - y.2.1), sq_nonneg (x.2.2 - y.2.2)]
      exact (pow_eq_zero_iff two_ne_zero).mp hp
    have e3 : x.2.2 - y.2.2 = 0 := by
      have hp : (x.2.2 - y.2.2) ^ 2 = 0 := by
        nlinarith [sq_nonneg (x.1 - y.1), sq_nonneg (x.2.1 - y.2.1), sq_nonneg (x.2.2 - y.2.2)]
      exact (pow_eq_zero_iff two_ne_zero).mp hp
    have h1 : x.1 = y.1 := by linarith
    have h2 : x.2.1 = y.2.1 := by linarith
    have h3 : x.2.2 = y.2.2 := by linarith
    exact Prod.ext_iff.mpr ⟨h1, Prod.ext_iff.mpr ⟨h2, h3⟩⟩
  · intro h
    rw [h]
    exact deltaE_self y

theorem getD_map_of_lt {α β : Type} (f : α → β) (l : List α) (k : Nat)
    (hk : k < l.length) (d0 : β) (d1 : α) :
    (l.map f).getD k d0 = f (l.getD k d1) := by
  rw [List.getD_eq_getElem?_getD, List.getElem?_map, List.getElem?_eq_getElem hk,
    List.getD_eq_getElem?_getD, List.getElem?_eq_getElem hk]
  rfl

/-- The second remap of an opaque pixel lands on the same palette index:
the chosen index is the first one attaining the minimal Delta E, so the
palette entry it denotes is the first entry carrying its own LAB value,
and remapping that entry picks the same index again. -/
theorem nearestPaletteIndex_fixed (palette : List Pixel) (hpal : palette ≠ [])
    (r g b : Nat) :
    nearestPaletteIndex
      (palette.getD (nearestPaletteIndex r g b
        (palette.map fun c => rgbToLab c.r c.g c.b)) ⟨0, 0, 0, 0⟩).r
      (palette.getD (nearestPaletteIndex r g b
        (palette.map fun c => rgbToLab c.r c.g c.b)) ⟨0, 0, 0, 0⟩).g
      (palette.getD (nearestPaletteIndex r g b
        (palette.map fun c => rgbToLab c.r c.g c.b)) ⟨0, 0, 0, 0⟩).b
      (palette.map fun c => rgbToLab c.r c.g c.b) =
    nearestPaletteIndex r g b (palette.map fun c => rgbToLab c.r c.g c.b) := by
  set labs := palette.map fun c => rgbToLab c.r c.g c.b with hlabs
  have hlabs_ne : labs ≠ [] := by
    rw [hlabs]
    simpa using hpal
  have hlabs_len : labs.length = palette.length := by
    rw [hlabs]
    exact List.length_map _ _
  set x := rgbToLab r g b with hx
  set ds := labs.map fun pl => deltaE x pl with hds
  have hds_ne : ds ≠ [] := by
    rw [hds]
    simpa using hlabs_ne
  have hds_len : ds.length = labs.length := by
    rw [hds]
    exact List.length_map _ _
  set j := argminFirst ds with hj
  obtain ⟨hjlt, hjmin, hjstrict⟩ := argminFirst_spec ds 0 hds_ne
  rw [← hj] at hjlt hjmin hjstrict
  have hjlt' : j < labs.length := by omega
  have hjpal : j < palette.length := by omega
  -- the LAB of the chosen palette entry is the list entry at `j`
  have hlab_at : rgbToLab (palette.getD j ⟨0, 0, 0, 0⟩).r
      (palette.getD j ⟨0, 0, 0, 0⟩).g (palette.getD j ⟨0, 0, 0, 0⟩).b =
      labs.getD j x := by
    rw [hlabs, getD_map_of_lt _ _ _ hjpal x ⟨0, 0, 0, 0⟩]
  show argminFirst (labs.map fun pl =>
    deltaE (rgbToLab (palette.getD j ⟨0, 0, 0, 0⟩).r (palette.getD j ⟨0, 0, 0, 0⟩).g
      (palette.getD j ⟨0, 0, 0, 0⟩).b) pl) = j
  rw [hlab_at]
  apply argminFirst_unique _ (0 : ℝ) j (by simpa using hjlt')
  · intro m hm
    rw [List.length_map] at hm
    rw [getD_map_of_lt _ _ _ hjlt' (0 : ℝ) x, getD_map_of_lt _ _ _ hm (0 : ℝ) x,
      deltaE_self]
    exact deltaE_nonneg _ _
  · intro m hm
    rw [getD_map_of_lt _ _ _ hjlt' (0 : ℝ) x, getD_map_of_lt _ _ _ (by omega) (0 : ℝ) x,
      deltaE_self]
    rcases lt_or_eq_of_le (deltaE_nonneg (labs.getD j x) (labs.getD m x)) with hpos | hzero
    · exact hpos
    · exfalso
      have heqlab : labs.getD j x = labs.getD m x := (deltaE_eq_zero_iff _ _).mp hzero.symm
      have hmlen : m < labs.length := by omega
      have hdj : ds.getD j 0 = deltaE x (labs.getD j x) :=
        getD_map_of_lt _ _ _ hjlt' (0 : ℝ) x
      have hdm : ds.getD m 0 = deltaE x (labs.getD m x) :=
        getD_map_of_lt _ _ _ hmlen (0 : ℝ) x
      have := hjstrict m hm
      rw [hdj, hdm, heqlab] at this
      exact lt_irrefl _ this

/-- C7: `remapToPalette` is idempotent: remapping a remapped buffer with
the same palette is a byte-for-byte no-op (opaque pixels keep their alpha
and take the RGB of their nearest palette entry by CIELAB distance;
transparent pixels pass through as `(0,0,0,0)`; the empty palette maps
everything to zero, which is again a fixed point). -/
theorem C7_remapToPalette_idempotent (data : Buffer) (palette : List Pixel) :
    remapToPalette (remapToPalette data palette) palette = remapToPalette data palette := by
  by_cases hpal : palette.length = 0
  · unfold remapToPalette
    rw [if_pos hpal, if_pos hpal]
    simp
  · have hpal_ne : palette ≠ [] := by
      intro hnil
      rw [hnil] at hpal
      exact hpal rfl
    unfold remapToPalette
    rw [if_neg hpal, if_neg hpal]
    rw [List.map_map]
    apply List.map_congr_left
    intro p _
    by_cases ha : p.a = 0
    · simp [Function.comp, ha]
    · simp only [Function.comp, if_neg ha]
      rw [nearestPaletteIndex_fixed palette hpal_ne p.r p.g p.b]

/-! ## Claim C2: transparency handling

"Transparent pixels contribute to no statistics" is formalized as
invariance: two buffers that agree on every opaque pixel — transparent
pixels may hold arbitrary RGB — produce identical results. -/

/-- Two buffers of equal length whose pixels agree wherever either is
opaque (both transparent, or equal). -/
def opaqueAgree : Buffer → Buffer → Prop :=
  List.Forall₂ fun p q => (p.a = 0 ∧ q.a = 0) ∨ p = q

theorem pixelAt_replicate_zero (n p : Nat) :
    pixelAt (List.replicate n (⟨0, 0, 0, 0⟩ : Pixel)) p = ⟨0, 0, 0, 0⟩ := by
  by_cases hp : p < n
  · unfold pixelAt
    rw [List.getD_eq_getElem?_getD, List.getElem?_eq_getElem (by simpa using hp)]
    simp
  · exact pixelAt_default_of_le _ _ (by simpa using hp)

theorem opaqueAgree_length {d1 d2 : Buffer} (h : opaqueAgree d1 d2) :
    d1.length = d2.length := List.Forall₂.length_eq h

theorem opaqueAgree_pixelAt {d1 d2 : Buffer} (h : opaqueAgree d1 d2) (p : Nat) :
    ((pixelAt d1 p).a = 0 ∧ (pixelAt d2 p).a = 0) ∨ pixelAt d1 p = pixelAt d2 p := by
  induction h generalizing p with
  | nil => exact Or.inr rfl
  | cons hr hrest ih =>
    cases p with
    | zero => exact hr
    | succ p' => exact ih p'

theorem hist_foldl_congr {d1 d2 : Buffer} (h : opaqueAgree d1 d2) :
    ∀ m, d1.foldl (fun m p => if p.a = 0 then m else histInsert m p) m =
      d2.foldl (fun m p => if p.a = 0 then m else histInsert m p) m := by
  induction h with
  | nil => intro m; rfl
  | @cons p q t1 t2 hr hrest ih =>
    intro m
    rw [List.foldl_cons, List.foldl_cons]
    rcases hr with ⟨hp0, hq0⟩ | hpq
    · rw [if_pos hp0, if_pos hq0]
      exact ih m
    · rw [hpq]
      exact ih _

theorem colorHistogram_congr {d1 d2 : Buffer} (h : opaqueAgree d1 d2) :
    colorHistogram d1 = colorHistogram d2 := hist_foldl_congr h []

theorem insertAll_congr {d1 d2 : Buffer} (h : opaqueAgree d1 d2) (t : ONode) :
    insertAll d1 t = insertAll d2 t := by
  unfold insertAll
  induction h generalizing t with
  | nil => rfl
  | @cons p q t1 t2 hr hrest ih =>
    rw [List.foldl_cons, List.foldl_cons]
    rcases hr with ⟨hp0, hq0⟩ | hpq
    · rw [if_pos hp0, if_pos hq0]
      exact ih _
    · rw [hpq]
      exact ih _

theorem opaqueAgree_pixelAt_eq {d1 d2 : Buffer} (h : opaqueAgree d1 d2) (p : Nat)
    (ha : (pixelAt d1 p).a ≠ 0) : pixelAt d1 p = pixelAt d2 p := by
  rcases opaqueAgree_pixelAt h p with ⟨h1, _⟩ | heq
  · exact absurd h1 ha
  · exact heq

theorem clusterPixels_congr {d1 d2 : Buffer} (h : opaqueAgree d1 d2)
    (pc : Nat) (asg : Nat → Nat) (c : Nat) :
    clusterPixels d1 pc asg c = clusterPixels d2 pc asg c := by
  unfold clusterPixels
  apply List.filter_congr
  intro p _
  rcases opaqueAgree_pixelAt h p with ⟨h1, h2⟩ | heq
  · simp [h1, h2]
  · rw [heq]

theorem clusterCount_congr {d1 d2 : Buffer} (h : opaqueAgree d1 d2)
    (pc : Nat) (asg : Nat → Nat) (c : Nat) :
    clusterCount d1 pc asg c = clusterCount d2 pc asg c := by
  unfold clusterCount
  rw [clusterPixels_congr h]

theorem clusterSum_congr {d1 d2 : Buffer} (h : opaqueAgree d1 d2)
    (pc : Nat) (asg : Nat → Nat) (c : Nat) (f : Pixel → Nat) :
    clusterSum d1 pc asg c f = clusterSum d2 pc asg c f := by
  unfold clusterSum
  rw [clusterPixels_congr h]
  refine congrArg List.sum (List.map_congr_left ?_)
  intro p hp
  have hmem := List.of_mem_filter hp
  rcases opaqueAgree_pixelAt h p with ⟨h1, h2⟩ | heq
  · exact absurd h2 (of_decide_eq_true hmem).1
  · rw [heq]

theorem kmeansAssign_congr {d1 d2 : Buffer} (h : opaqueAgree d1 d2)
    (pc : Nat) (pal : List Pixel) :
    kmeansAssign d1 pc pal = kmeansAssign d2 pc pal := by
  unfold kmeansAssign
  refine List.map_congr_left ?_
  intro p _
  rcases opaqueAgree_pixelAt h p with ⟨h1, h2⟩ | heq
  · rw [if_pos h1, if_pos h2]
  · rw [heq]

theorem kmeansUpdate_congr {d1 d2 : Buffer} (h : opaqueAgree d1 d2)
    (pc : Nat) (pal : List Pixel) (asg : Nat → Nat) :
    kmeansUpdate d1 pc pal asg = kmeansUpdate d2 pc pal asg := by
  unfold kmeansUpdate
  simp only [clusterCount_congr h, clusterSum_congr h]

theorem kmeansLoop_congr {d1 d2 : Buffer} (h : opaqueAgree d1 d2) (pc : Nat) :
    ∀ (fuel : Nat) (pal : List Pixel),
      kmeansLoop d1 pc fuel pal = kmeansLoop d2 pc fuel pal := by
  intro fuel
  induction fuel with
  | zero => intro pal; rfl
  | succ fuel ih =>
    intro pal
    simp only [kmeansLoop, kmeansAssign_congr h, kmeansUpdate_congr h]
    split
    · rfl
    · exact ih _

theorem medianCutPalette_congr {d1 d2 : Buffer} (h : opaqueAgree d1 d2) (K : Nat) :
    medianCutPalette d1 K = medianCutPalette d2 K := by
  unfold medianCutPalette medianCutBuckets
  rw [colorHistogram_congr h]

theorem octreeRoot_congr {d1 d2 : Buffer} (h : opaqueAgree d1 d2) (K : Nat) :
    octreeRoot d1 K = octreeRoot d2 K := by
  unfold octreeRoot octreeInserted
  rw [insertAll_congr h]

/-- C2 (counterexample): a 2×2 block of fully transparent red pixels
`(255,0,0,0)` snaps (gridSize 2) to the single pixel `(255,0,0,0)`: the
output keeps alpha 0 but RGB `(255,0,0)` — the transparent pixels' RGB won
the majority vote, so `snapToGrid` neither zeroes their RGB nor excludes
them from its block statistics. -/
theorem C2_counterexample :
    snapToGrid (List.replicate 4 ⟨255, 0, 0, 0⟩) 2 2 2 =
      .ok ⟨[⟨255, 0, 0, 0⟩], 1, 1⟩ ∧ (⟨255, 0, 0, 0⟩ : Pixel).r ≠ 0 := by
  exact ⟨rfl, by decide⟩

set_option maxHeartbeats 4000000 in
/-- C2 (amended): for the three quantizers and `remapToPalette`, a fully
transparent input pixel always yields the output pixel `(0,0,0,0)`, and
transparent pixels contribute to no statistics: buffers that agree on all
opaque pixels (transparent RGB arbitrary) produce byte-identical results.
`snapToGrid` is exempt: it treats alpha-0 pixels as ordinary pixels in the
block frequency map and the weighted average. -/
theorem C2_transparent_passthrough :
    (∀ (data : Buffer) (w h K p : Nat), (pixelAt data p).a = 0 →
      pixelAt (medianCutQuantize data w h K).remappedData p = ⟨0, 0, 0, 0⟩) ∧
    (∀ (data : Buffer) (w h K p : Nat), (pixelAt data p).a = 0 →
      pixelAt (octreeQuantize data w h K).remappedData p = ⟨0, 0, 0, 0⟩) ∧
    (∀ (data : Buffer) (w h it p : Nat) (pal : List Pixel), (pixelAt data p).a = 0 →
      pixelAt (refineWithKMeans data w h pal it).remappedData p = ⟨0, 0, 0, 0⟩) ∧
    (∀ (data : Buffer) (pal : List Pixel) (p : Nat), (pixelAt data p).a = 0 →
      pixelAt (remapToPalette data pal) p = ⟨0, 0, 0, 0⟩) ∧
    (∀ (d1 d2 : Buffer) (w h K : Nat), opaqueAgree d1 d2 →
      medianCutQuantize d1 w h K = medianCutQuantize d2 w h K) ∧
    (∀ (d1 d2 : Buffer) (w h K : Nat), opaqueAgree d1 d2 →
      octreeQuantize d1 w h K = octreeQuantize d2 w h K) ∧
    (∀ (d1 d2 : Buffer) (w h it : Nat) (pal : List Pixel), opaqueAgree d1 d2 →
      refineWithKMeans d1 w h pal it = refineWithKMeans d2 w h pal it) ∧
    (∀ (d1 d2 : Buffer) (pal : List Pixel), opaqueAgree d1 d2 →
      remapToPalette d1 pal = remapToPalette d2 pal) := by
  refine ⟨?_, ?_, ?_, ?_, ?_, ?_, ?_, ?_⟩
  · intro data w h K p ha
    unfold medianCutQuantize
    by_cases hK : K = 0
    · rw [if_pos hK]
      exact pixelAt_replicate_zero _ _
    · rw [if_neg hK]
      by_cases hu : (colorHistogram data).length = 0
      · rw [if_pos hu]
        exact pixelAt_replicate_zero _ _
      · rw [if_neg hu]
        by_cases hp : p < w * h
        · rw [pixelAt_range_map _ _ _ hp, if_pos ha]
        · exact pixelAt_range_map_oob _ _ _ (by omega)
  · intro data w h K p ha
    unfold octreeQuantize
    by_cases hK : K = 0
    · rw [if_pos hK]
      exact pixelAt_replicate_zero _ _
    · rw [if_neg hK]
      by_cases hp : p < w * h
      · rw [pixelAt_range_map _ _ _ hp, if_pos ha]
      · exact pixelAt_range_map_oob _ _ _ (by omega)
  · intro data w h it p pal ha
    unfold refineWithKMeans
    by_cases hpal : pal.length = 0
    · rw [if_pos hpal]
      exact pixelAt_replicate_zero _ _
    · rw [if_neg hpal]
      by_cases hp : p < w * h
      · rw [pixelAt_range_map _ _ _ hp, if_pos ha]
      · exact pixelAt_range_map_oob _ _ _ (by omega)
  · intro data pal p ha
    unfold remapToPalette
    by_cases hpal : pal.length = 0
    · rw [if_pos hpal]
      exact pixelAt_replicate_zero _ _
    · rw [if_neg hpal]
      by_cases hp : p < data.length
      · rw [show pixelAt (data.map fun q =>
            if q.a = 0 then (⟨0, 0, 0, 0⟩ : Pixel)
            else
              let c := pal.getD (nearestPaletteIndex q.r q.g q.b
                (pal.map fun c => rgbToLab c.r c.g c.b)) ⟨0, 0, 0, 0⟩
              ⟨c.r, c.g, c.b, q.a⟩) p =
          (fun q =>
            if q.a = 0 then (⟨0, 0, 0, 0⟩ : Pixel)
            else
              let c := pal.getD (nearestPaletteIndex q.r q.g q.b
                (pal.map fun c => rgbToLab c.r c.g c.b)) ⟨0, 0, 0, 0⟩
              ⟨c.r, c.g, c.b, q.a⟩) (pixelAt data p)
          from getD_map_of_lt _ data p hp _ ⟨0, 0, 0, 0⟩]
        simp [ha]
      · have : (data.map fun q =>
            if q.a = 0 then (⟨0, 0, 0, 0⟩ : Pixel)
            else
              let c := pal.getD (nearestPaletteIndex q.r q.g q.b
                (pal.map fun c => rgbToLab c.r c.g c.b)) ⟨0, 0, 0, 0⟩
              ⟨c.r, c.g, c.b, q.a⟩).length ≤ p := by
          rw [List.length_map]
          omega
        exact pixelAt_default_of_le _ _ this
  · intro d1 d2 w h K hag
    unfold medianCutQuantize
    rw [colorHistogram_congr hag, opaqueAgree_length hag, medianCutPalette_congr hag]
    by_cases hK : K = 0
    · rw [if_pos hK, if_pos hK]
    · rw [if_neg hK, if_neg hK]
      by_cases hu : (colorHistogram d2).length = 0
      · rw [if_pos hu, if_pos hu]
      · rw [if_neg hu, if_neg hu]
        congr 1
        · refine List.map_congr_left ?_
          intro p _
          rcases opaqueAgree_pixelAt hag p with ⟨h1, h2⟩ | heq
          · rw [if_pos h1, if_pos h2]
          · rw [heq]
        · refine List.map_congr_left ?_
          intro p _
          rcases opaqueAgree_pixelAt hag p with ⟨h1, h2⟩ | heq
          · rw [if_pos h1, if_pos h2]
          · rw [heq]
  · intro d1 d2 w h K hag
    unfold octreeQuantize
    rw [opaqueAgree_length hag, octreeRoot_congr hag]
    by_cases hK : K = 0
    · rw [if_pos hK, if_pos hK]
    · rw [if_neg hK, if_neg hK]
      congr 1
      · refine List.map_congr_left ?_
        intro p _
        rcases opaqueAgree_pixelAt hag p with ⟨h1, h2⟩ | heq
        · rw [if_pos h1, if_pos h2]
        · rw [heq]
      · refine List.map_congr_left ?_
        intro p _
        rcases opaqueAgree_pixelAt hag p with ⟨h1, h2⟩ | heq
        · rw [if_pos h1, if_pos h2]
        · rw [heq]
  · intro d1 d2 w h it pal hag
    unfold refineWithKMeans
    have hkp : kmeansPalette d1 (w * h) pal it = kmeansPalette d2 (w * h) pal it := by
      unfold kmeansPalette
      exact kmeansLoop_congr hag (w * h) it pal
    rw [opaqueAgree_length hag, hkp]
    by_cases hpal : pal.length = 0
    · rw [if_pos hpal, if_pos hpal]
    · rw [if_neg hpal, if_neg hpal]
      congr 1
      · refine List.map_congr_left ?_
        intro p _
        rcases opaqueAgree_pixelAt hag p with ⟨h1, h2⟩ | heq
        · rw [if_pos h1, if_pos h2]
        · have hb : kmeansBest d1 (kmeansPalette d2 (w * h) pal it) p =
              kmeansBest d2 (kmeansPalette d2 (w * h) pal it) p := by
            unfold kmeansBest
            rw [heq]
          rw [heq, hb]
      · refine List.map_congr_left ?_
        intro p _
        rcases opaqueAgree_pixelAt hag p with ⟨h1, h2⟩ | heq
        · rw [if_pos h1, if_pos h2]
        · have hb : kmeansBest d1 (kmeansPalette d2 (w * h) pal it) p =
              kmeansBest d2 (kmeansPalette d2 (w * h) pal it) p := by
            unfold kmeansBest
            rw [heq]
          rw [heq, hb]
  · intro d1 d2 pal hag
    unfold remapToPalette
    rw [opaqueAgree_length hag]
    by_cases hpal : pal.length = 0
    · rw [if_pos hpal, if_pos hpal]
    · rw [if_neg hpal, if_neg hpal]
      induction hag with
      | nil => rfl
      | @cons p q t1 t2 hr hrest ih =>
        rw [List.map_cons, List.map_cons]
        refine congrArg₂ _ ?_ ih
        rcases hr with ⟨h1, h2⟩ | hpq
        · rw [if_pos h1, if_pos h2]
        · rw [hpq]

/-- C2 (witness): two buffers differing only in the RGB of a transparent
pixel quantize and remap identically, and the transparent position comes
out `(0,0,0,0)`. -/
theorem C2_transparent_passthrough_witness :
    pixelAt (medianCutQuantize [⟨255, 0, 0, 0⟩, ⟨1, 2, 3, 255⟩] 1 2 2).remappedData 0 =
      ⟨0, 0, 0, 0⟩ ∧
    medianCutQuantize [⟨255, 0, 0, 0⟩, ⟨1, 2, 3, 255⟩] 1 2 2 =
      medianCutQuantize [⟨9, 9, 9, 0⟩, ⟨1, 2, 3, 255⟩] 1 2 2 ∧
    octreeQuantize [⟨255, 0, 0, 0⟩, ⟨1, 2, 3, 255⟩] 1 2 2 =
      octreeQuantize [⟨9, 9, 9, 0⟩, ⟨1, 2, 3, 255⟩] 1 2 2 ∧
    remapToPalette [⟨255, 0, 0, 0⟩, ⟨1, 2, 3, 255⟩] [⟨3, 3, 3, 255⟩] =
      remapToPalette [⟨9, 9, 9, 0⟩, ⟨1, 2, 3, 255⟩] [⟨3, 3, 3, 255⟩] :=
  ⟨C2_transparent_passthrough.1 [⟨255, 0, 0, 0⟩, ⟨1, 2, 3, 255⟩] 1 2 2 0 (by decide),
   C2_transparent_passthrough.2.2.2.2.1 _ _ 1 2 2
     (List.Forall₂.cons (Or.inl ⟨rfl, rfl⟩) (List.Forall₂.cons (Or.inr rfl) List.Forall₂.nil)),
   C2_transparent_passthrough.2.2.2.2.2.1 _ _ 1 2 2
     (List.Forall₂.cons (Or.inl ⟨rfl, rfl⟩) (List.Forall₂.cons (Or.inr rfl) List.Forall₂.nil)),
   C2_transparent_passthrough.2.2.2.2.2.2.2 _ _ [⟨3, 3, 3, 255⟩]
     (List.Forall₂.cons (Or.inl ⟨rfl, rfl⟩) (List.Forall₂.cons (Or.inr rfl) List.Forall₂.nil))⟩

/-! ## C3: the 12×12 checkerboard end-to-end scenario -/

set_option maxRecDepth 40000 in
set_option maxHeartbeats 1000000 in
/-- C3: on the 12×12 red/blue checkerboard of 4×4 blocks, the detector
returns grid size 4; snapping at grid size 4 yields the 3×3 checkerboard
buffer (whose nine pixels alternate red and blue, starting red); and octree
quantization of the snapped buffer with target 2 yields the two-entry
palette of exactly blue and red. -/
theorem C3_checkerboard_scenario :
    (detectGridSize checker12 12 12).gridSize = 4 ∧
    snapToGrid checker12 12 12 4 = .ok ⟨checker3, 3, 3⟩ ∧
    checker3 = [redPx, bluePx, redPx, bluePx, redPx, bluePx, redPx, bluePx, redPx] ∧
    (octreeQuantize checker3 3 3 2).palette = [bluePx, redPx] := by
  refine ⟨?_, by rfl, by decide, by decide⟩
  have hruns : runsBased checker12 12 12 = [(4, 72)] := by decide
  have htot : detectTotalRuns checker12 12 12 = 72 := by decide
  have hedge : edgeAwareScores checker12 12 12 2 32 =
      [(2, 1), (3, 0), (4, 1), (5, 0), (6, 0), (7, 0), (8, 1/2), (9, 0), (10, 0),
       (11, 0), (12, 0)] := by
    have hT : totalGradient checker12 12 12 = 24480 := by decide
    have hE : (List.range 11).map (fun k => edgeGridSum checker12 12 12 (2 + k)) =
        [24480, 0, 24480, 0, 0, 0, 12240, 0, 0, 0, 0] := by decide
    have hr : List.range 11 = [0, 1, 2, 3, 4, 5, 6, 7, 8, 9, 10] := by decide
    rw [hr] at hE
    simp only [List.map_cons, List.map_nil, List.cons.injEq, and_true] at hE
    obtain ⟨e0, e1, e2, e3, e4, e5, e6, e7, e8, e9, e10⟩ := hE
    unfold edgeAwareScores
    rw [hT]
    norm_num
    rw [hr]
    simp only [List.map_cons, List.map_nil]
    rw [e0, e1, e2, e3, e4, e5, e6, e7, e8, e9, e10]
    norm_num
  have hcand : detectCandidates checker12 12 12 = [4, 2, 3, 5, 6, 7, 8, 9, 10, 11, 12, 1] := by
    decide
  have hs : ∀ s, detectScore checker12 12 12 s =
      (((runsBased checker12 12 12).find? fun e => e.1 = s).map Prod.snd).getD 0 /
        (detectTotalRuns checker12 12 12 : ℚ) * (2 / 5) +
      (((edgeAwareScores checker12 12 12 2 32).find? fun e => e.1 = s).map Prod.snd).getD 0 *
        (3 / 5) := fun s => rfl
  have htop : detectTop3 checker12 12 12 = [(4, 1), (2, 3/5), (8, 3/10)] := by
    unfold detectTop3
    rw [hcand]
    simp only [List.map_cons, List.map_nil]
    simp only [hs, hruns, htot, hedge]
    norm_num [List.find?]
    norm_num [sortDescBy, insertDesc]
  have hbest : detectBestSize checker12 12 12 = 4 := by
    unfold detectBestSize
    rw [htop]
    rfl
  unfold detectGridSize
  rw [if_neg (by norm_num : ¬((12 : Nat) ≤ 1 ∨ (12 : Nat) ≤ 1))]
  exact hbest

end SpriteSprout

namespace SpriteSprout

/-! ## C4: the per-block majority / weighted-fallback rule of `snapToGrid` -/

/-- All cells `(dx, dy)` of a full `g × g` block, in reading order. -/
def fullCells (g : Nat) : List (Nat × Nat) :=
  (List.range g).flatMap fun dy => (List.range g).map fun dx => (dx, dy)

/-- Spec side: the pixels of the logical block `(lx, ly)` in reading order
(blocks inside the logical grid are never clipped by the image border). -/
def blockPixels (px : Buffer) (w g lx ly : Nat) : List Pixel :=
  (fullCells g).map fun c => getPixel px w (lx * g + c.1) (ly * g + c.2)

/-- Spec side: how many pixels of `l` have RGB `(r, gc, bc)`. -/
def countRGB (l : List Pixel) (r gc bc : Nat) : Nat :=
  (l.filter fun p => p.r = r ∧ p.g = gc ∧ p.b = bc).length

/-- Spec side: the total alpha of the pixels of `l` with RGB `(r, gc, bc)`. -/
def alphaSumRGB (l : List Pixel) (r gc bc : Nat) : Nat :=
  ((l.filter fun p => p.r = r ∧ p.g = gc ∧ p.b = bc).map Pixel.a).sum

/-- Spec side: the weighted average of R, G, B and A over all pixels of the
block, each pixel weighted by the inverse of one plus its Euclidean
distance from the block center, rounded per channel. -/
noncomputable def specWeightedAverage (px : Buffer) (w g lx ly : Nat) : Pixel :=
  let tw := ((fullCells g).map fun c => cellWeight g c.1 c.2).sum
  let avg : (Pixel → Nat) → Nat := fun f =>
    jsRound (((fullCells g).map fun c =>
      (f (getPixel px w (lx * g + c.1) (ly * g + c.2)) : ℝ) * cellWeight g c.1 c.2).sum / tw)
  ⟨avg Pixel.r, avg Pixel.g, avg Pixel.b, avg Pixel.a⟩

/-- The RGB key of a frequency-map entry. -/
def entryKey (e : FreqEntry) : Nat × Nat × Nat := (e.r, e.g, e.b)

/-- The RGB key of a pixel. -/
def pixKey (p : Pixel) : Nat × Nat × Nat := (p.r, p.g, p.b)

/-- The frequency map built from a pixel list. -/
def freqOf (l : List Pixel) : List FreqEntry := l.foldl freqInsert []

theorem freqInsert_not_mem (m : List FreqEntry) (p : Pixel)
    (h : pixKey p ∉ m.map entryKey) :
    freqInsert m p = m ++ [⟨1, p.r, p.g, p.b, p.a⟩] := by
  induction m with
  | nil => rfl
  | cons e rest ih =>
    simp only [List.map_cons, List.mem_cons, not_or] at h
    have hne : ¬(e.r = p.r ∧ e.g = p.g ∧ e.b = p.b) := by
      intro ⟨h1, h2, h3⟩
      exact h.1 (by simp [entryKey, pixKey, h1, h2, h3])
    simp only [freqInsert, if_neg hne, ih h.2, List.cons_append]

theorem freqInsert_mem (m : List FreqEntry) (p : Pixel)
    (h : pixKey p ∈ m.map entryKey) :
    ∃ m1 e m2, m = m1 ++ e :: m2 ∧ pixKey p ∉ m1.map entryKey ∧
      entryKey e = pixKey p ∧
      freqInsert m p = m1 ++ (⟨e.count + 1, e.r, e.g, e.b, e.aSum + p.a⟩ : FreqEntry) :: m2 := by
  induction m with
  | nil => simp at h
  | cons e rest ih =>
    by_cases hk : e.r = p.r ∧ e.g = p.g ∧ e.b = p.b
    · refine ⟨[], e, rest, rfl, by simp, ?_, ?_⟩
      · simp [entryKey, pixKey, hk.1, hk.2.1, hk.2.2]
      · simp only [freqInsert, if_pos hk, List.nil_append]
    · have hmem : pixKey p ∈ rest.map entryKey := by
        simp only [List.map_cons, List.mem_cons] at h
        rcases h with h | h
        · exact absurd (by simpa [entryKey, pixKey, Prod.ext_iff] using h.symm) hk
        · exact h
      obtain ⟨m1, e', m2, hm, hnm, hke, hfi⟩ := ih hmem
      refine ⟨e :: m1, e', m2, by rw [hm]; rfl, ?_, hke, ?_⟩
      · simp only [List.map_cons, List.mem_cons, not_or]
        refine ⟨?_, hnm⟩
        intro hkey
        exact hk (by
          have := hkey.symm
          simp [entryKey, pixKey, Prod.ext_iff] at this
          exact ⟨this.1, this.2.1, this.2.2⟩)
      · simp only [freqInsert, if_neg hk, hfi, List.cons_append]


theorem countRGB_append_single (l : List Pixel) (p : Pixel) (r gc bc : Nat) :
    countRGB (l ++ [p]) r gc bc =
      countRGB l r gc bc + if p.r = r ∧ p.g = gc ∧ p.b = bc then 1 else 0 := by
  simp only [countRGB, List.filter_append, List.length_append]
  by_cases hp : p.r = r ∧ p.g = gc ∧ p.b = bc
  · simp [hp]
  · simp [hp]

theorem alphaSumRGB_append_single (l : List Pixel) (p : Pixel) (r gc bc : Nat) :
    alphaSumRGB (l ++ [p]) r gc bc =
      alphaSumRGB l r gc bc + if p.r = r ∧ p.g = gc ∧ p.b = bc then p.a else 0 := by
  simp only [alphaSumRGB, List.filter_append, List.map_append, List.sum_append]
  by_cases hp : p.r = r ∧ p.g = gc ∧ p.b = bc
  · simp [hp]
  · simp [hp]

theorem countRGB_pos_exists (l : List Pixel) (r gc bc : Nat)
    (h : 0 < countRGB l r gc bc) :
    ∃ q ∈ l, q.r = r ∧ q.g = gc ∧ q.b = bc := by
  unfold countRGB at h
  rcases List.exists_mem_of_length_pos h with ⟨q, hq⟩
  exact ⟨q, (List.mem_filter.mp hq).1, by simpa using (List.mem_filter.mp hq).2⟩

theorem countRGB_add_le (l : List Pixel) (r1 g1 b1 r2 g2 b2 : Nat)
    (hne : (r1, g1, b1) ≠ (r2, g2, b2)) :
    countRGB l r1 g1 b1 + countRGB l r2 g2 b2 ≤ l.length := by
  induction l with
  | nil => simp [countRGB]
  | cons p tl ih =>
    simp only [countRGB] at ih ⊢
    rw [List.filter_cons, List.filter_cons]
    by_cases h1 : p.r = r1 ∧ p.g = g1 ∧ p.b = b1
    · have h2 : ¬(p.r = r2 ∧ p.g = g2 ∧ p.b = b2) := by
        intro h2
        exact hne (by rw [← h1.1, ← h1.2.1, ← h1.2.2, h2.1, h2.2.1, h2.2.2])
      rw [if_pos (by simpa using h1), if_neg (by simpa using h2)]
      simp only [List.length_cons]
      omega
    · by_cases h2 : p.r = r2 ∧ p.g = g2 ∧ p.b = b2
      · rw [if_neg (by simpa using h1), if_pos (by simpa using h2)]
        simp only [List.length_cons]
        omega
      · rw [if_neg (by simpa using h1), if_neg (by simpa using h2)]
        simp only [List.length_cons]
        omega

/-- The frequency-map invariant: entry counts and alpha sums agree with the
spec-side per-color statistics, keys are distinct, and every inserted pixel
has an entry. -/
theorem freqOf_invariant (l : List Pixel) :
    (∀ e ∈ freqOf l, e.count = countRGB l e.r e.g e.b ∧
        e.aSum = alphaSumRGB l e.r e.g e.b) ∧
    ((freqOf l).map entryKey).Nodup ∧
    (∀ p ∈ l, pixKey p ∈ (freqOf l).map entryKey) := by
  induction l using List.reverseRecOn with
  | nil => simp [freqOf]
  | append_singleton xs p ih =>
    obtain ⟨hcnt, hnd, hmem⟩ := ih
    have hstep : freqOf (xs ++ [p]) = freqInsert (freqOf xs) p := by
      simp [freqOf, List.foldl_append]
    by_cases hk : pixKey p ∈ (freqOf xs).map entryKey
    · obtain ⟨m1, e, m2, hm, hnm, hke, hfi⟩ := freqInsert_mem (freqOf xs) p hk
      have hkey : e.r = p.r ∧ e.g = p.g ∧ e.b = p.b := by
        have := hke
        simp [entryKey, pixKey, Prod.ext_iff] at this
        exact ⟨this.1, this.2.1, this.2.2⟩
      rw [hstep, hfi]
      have hkeys : (m1 ++ (⟨e.count + 1, e.r, e.g, e.b, e.aSum + p.a⟩ : FreqEntry) :: m2).map entryKey =
          (freqOf xs).map entryKey := by
        rw [hm]
        simp [entryKey]
      refine ⟨?_, ?_, ?_⟩
      · intro e' he'
        have hmm : ∀ x ∈ freqOf xs, x.count = countRGB xs x.r x.g x.b ∧
            x.aSum = alphaSumRGB xs x.r x.g x.b := hcnt
        rw [hm] at hmm hnd
        rcases List.mem_append.mp he' with h1 | h2
        · -- unchanged entry before the bumped one
          have he'mem : e' ∈ m1 ++ e :: m2 := List.mem_append.mpr (Or.inl h1)
          have hspec := hmm e' he'mem
          have hne : ¬(p.r = e'.r ∧ p.g = e'.g ∧ p.b = e'.b) := by
            intro hcon
            exact hnm (by
              simp only [List.mem_map]
              exact ⟨e', h1, by simp [entryKey, pixKey, hcon.1, hcon.2.1, hcon.2.2]⟩)
          rw [countRGB_append_single, alphaSumRGB_append_single, if_neg hne, if_neg hne]
          simpa using hspec
        · rcases List.mem_cons.mp h2 with h2 | h2
          · -- the bumped entry
            subst h2
            have hspec := hmm e (List.mem_append.mpr (Or.inr (List.mem_cons_self _ _)))
            have hyes : p.r = e.r ∧ p.g = e.g ∧ p.b = e.b :=
              ⟨hkey.1.symm, hkey.2.1.symm, hkey.2.2.symm⟩
            constructor
            · show e.count + 1 = countRGB (xs ++ [p]) e.r e.g e.b
              rw [countRGB_append_single, if_pos hyes, hspec.1]
            · show e.aSum + p.a = alphaSumRGB (xs ++ [p]) e.r e.g e.b
              rw [alphaSumRGB_append_single, if_pos hyes, hspec.2]
          · -- unchanged entry after the bumped one
            have he'mem : e' ∈ m1 ++ e :: m2 :=
              List.mem_append.mpr (Or.inr (List.mem_cons_of_mem _ h2))
            have hspec := hmm e' he'mem
            have hne : ¬(p.r = e'.r ∧ p.g = e'.g ∧ p.b = e'.b) := by
              intro hcon
              have hkeq : entryKey e' = pixKey p := by
                simp [entryKey, pixKey, hcon.1, hcon.2.1, hcon.2.2]
              have hkey2 : entryKey e = entryKey e' := by rw [hkeq, hke]
              -- keys are nodup, so e' after e cannot share the key of e
              have hnd2 := hnd
              simp only [List.map_append, List.nodup_append] at hnd2
              have hnd3 := hnd2.2.1
              simp only [List.map_cons, List.nodup_cons] at hnd3
              exact hnd3.1 (by
                rw [hkey2]
                exact List.mem_map.mpr ⟨e', h2, rfl⟩)
            rw [countRGB_append_single, alphaSumRGB_append_single, if_neg hne, if_neg hne]
            simpa using hspec
      · rw [hkeys]
        exact hnd
      · intro q hq
        rw [hkeys]
        rcases List.mem_append.mp hq with h1 | h1
        · exact hmem q h1
        · have : q = p := by simpa using h1
          subst this
          rw [← hke, hm]
          simp
    · rw [hstep, freqInsert_not_mem _ _ hk]
      have hzero : countRGB xs p.r p.g p.b = 0 := by
        by_contra hpos
        obtain ⟨q, hqm, hq⟩ := countRGB_pos_exists xs p.r p.g p.b (Nat.pos_of_ne_zero hpos)
        have : pixKey q = pixKey p := by simp [pixKey, hq.1, hq.2.1, hq.2.2]
        exact hk (this ▸ hmem q hqm)
      have hazero : alphaSumRGB xs p.r p.g p.b = 0 := by
        unfold countRGB at hzero
        unfold alphaSumRGB
        rw [List.length_eq_zero] at hzero
        rw [hzero]
        rfl
      refine ⟨?_, ?_, ?_⟩
      · intro e' he'
        rcases List.mem_append.mp he' with h1 | h1
        · have hspec := hcnt e' h1
          have hne : ¬(p.r = e'.r ∧ p.g = e'.g ∧ p.b = e'.b) := by
            intro hcon
            exact hk (by
              have : pixKey p = entryKey e' := by
                simp [entryKey, pixKey, hcon.1, hcon.2.1, hcon.2.2]
              rw [this]
              exact List.mem_map.mpr ⟨e', h1, rfl⟩)
          rw [countRGB_append_single, alphaSumRGB_append_single, if_neg hne, if_neg hne]
          simpa using hspec
        · have : e' = ⟨1, p.r, p.g, p.b, p.a⟩ := by simpa using h1
          subst this
          constructor
          · show 1 = countRGB (xs ++ [p]) p.r p.g p.b
            rw [countRGB_append_single, if_pos ⟨rfl, rfl, rfl⟩, hzero]
          · show p.a = alphaSumRGB (xs ++ [p]) p.r p.g p.b
            rw [alphaSumRGB_append_single, if_pos ⟨rfl, rfl, rfl⟩, hazero, Nat.zero_add]
      · simp only [List.map_append, List.nodup_append]
        refine ⟨hnd, by simp, ?_⟩
        intro k hk1
        simp only [List.map_cons, List.map_nil, List.mem_singleton]
        intro hk2
        rw [hk2] at hk1
        exact hk (by simpa [entryKey, pixKey] using hk1)
      · intro q hq
        simp only [List.map_append]
        rcases List.mem_append.mp hq with h1 | h1
        · exact List.mem_append.mpr (Or.inl (hmem q h1))
        · have : q = p := by simpa using h1
          subst this
          exact List.mem_append.mpr (Or.inr (by simp [entryKey, pixKey]))


theorem majorityFind_eq_some (m : List FreqEntry) (L : List Pixel) (r gc bc : Nat)
    (hmaj : L.length < 2 * countRGB L r gc bc)
    (hcounts : ∀ e ∈ m, e.count = countRGB L e.r e.g e.b ∧
        e.aSum = alphaSumRGB L e.r e.g e.b)
    (hmem : (r, gc, bc) ∈ m.map entryKey) :
    majorityFind m L.length =
      some ⟨r, gc, bc, roundDiv (alphaSumRGB L r gc bc) (countRGB L r gc bc)⟩ := by
  induction m with
  | nil => simp at hmem
  | cons e rest ih =>
    by_cases hk : entryKey e = (r, gc, bc)
    · have hkey : e.r = r ∧ e.g = gc ∧ e.b = bc := by
        simpa [entryKey, Prod.ext_iff] using hk
      have hspec := hcounts e (List.mem_cons_self _ _)
      unfold majorityFind
      rw [if_pos (by rw [hspec.1, hkey.1, hkey.2.1, hkey.2.2]; omega)]
      rw [hspec.1, hspec.2, hkey.1, hkey.2.1, hkey.2.2]
    · have hkey : (e.r, e.g, e.b) ≠ (r, gc, bc) := by simpa [entryKey] using hk
      have hspec := hcounts e (List.mem_cons_self _ _)
      have hdisj := countRGB_add_le L e.r e.g e.b r gc bc hkey
      unfold majorityFind
      rw [if_neg (by rw [hspec.1]; omega)]
      refine ih (fun x hx => hcounts x (List.mem_cons_of_mem _ hx)) ?_
      simp only [List.map_cons, List.mem_cons] at hmem
      rcases hmem with h | h
      · exact absurd h.symm hk
      · exact h

theorem majorityFind_eq_none (m : List FreqEntry) (L : List Pixel)
    (hcounts : ∀ e ∈ m, e.count = countRGB L e.r e.g e.b)
    (hnomaj : ∀ r gc bc, 2 * countRGB L r gc bc ≤ L.length) :
    majorityFind m L.length = none := by
  induction m with
  | nil => rfl
  | cons e rest ih =>
    unfold majorityFind
    rw [if_neg (by rw [hcounts e (List.mem_cons_self _ _)]; have := hnomaj e.r e.g e.b; omega)]
    exact ih fun x hx => hcounts x (List.mem_cons_of_mem _ hx)

theorem blockCells_full (w h g lx ly : Nat) (hlx : lx < w / g) (hly : ly < h / g) :
    blockCells w h g lx ly = fullCells g := by
  have hbound : ∀ dy, dy < g → ∀ dx, dx < g → lx * g + dx < w ∧ ly * g + dy < h := by
    intro dy hdy dx hdx
    have hw1 : (lx + 1) * g ≤ w / g * g := Nat.mul_le_mul_right g hlx
    have hw2 : w / g * g ≤ w := Nat.div_mul_le_self w g
    have hw3 : (lx + 1) * g = lx * g + g := Nat.succ_mul lx g
    have hh1 : (ly + 1) * g ≤ h / g * g := Nat.mul_le_mul_right g hly
    have hh2 : h / g * g ≤ h := Nat.div_mul_le_self h g
    have hh3 : (ly + 1) * g = ly * g + g := Nat.succ_mul ly g
    omega
  have hrow : ∀ dy, dy < g →
      ((List.range g).filterMap fun dx =>
        if lx * g + dx < w ∧ ly * g + dy < h then some (dx, dy) else none) =
      (List.range g).map fun dx => (dx, dy) := by
    intro dy hdy
    have hgen : ∀ l : List Nat, (∀ dx ∈ l, dx < g) →
        (l.filterMap fun dx =>
          if lx * g + dx < w ∧ ly * g + dy < h then some (dx, dy) else none) =
        l.map fun dx => (dx, dy) := by
      intro l
      induction l with
      | nil => intro _; rfl
      | cons a tl ih =>
        intro hl
        have ha := hbound dy hdy a (hl a (List.mem_cons_self a tl))
        simp only [List.filterMap_cons, if_pos ha, List.map_cons]
        rw [ih fun x hx => hl x (List.mem_cons_of_mem a hx)]
    exact hgen _ fun dx hdx => List.mem_range.mp hdx
  unfold blockCells fullCells
  have hgen2 : ∀ l : List Nat, (∀ dy ∈ l, dy < g) →
      (l.flatMap fun dy => (List.range g).filterMap fun dx =>
        if lx * g + dx < w ∧ ly * g + dy < h then some (dx, dy) else none) =
      l.flatMap fun dy => (List.range g).map fun dx => (dx, dy) := by
    intro l
    induction l with
    | nil => intro _; rfl
    | cons a tl ih =>
      intro hl
      simp only [List.flatMap_cons]
      rw [hrow a (hl a (List.mem_cons_self a tl)),
        ih fun x hx => hl x (List.mem_cons_of_mem a hx)]
  exact hgen2 _ fun dy hdy => List.mem_range.mp hdy

theorem length_fullCells (g : Nat) : (fullCells g).length = g * g := by
  unfold fullCells
  have hgen : ∀ l : List Nat,
      (l.flatMap fun dy => (List.range g).map fun dx => (dx, dy)).length = l.length * g := by
    intro l
    induction l with
    | nil => simp
    | cons a tl ih =>
      simp only [List.flatMap_cons, List.length_append, List.length_map, List.length_range,
        ih, List.length_cons]
      rw [Nat.succ_mul]
      omega
  rw [hgen, List.length_range]

theorem blockFreq_eq_freqOf (px : Buffer) (w h g lx ly : Nat)
    (hlx : lx < w / g) (hly : ly < h / g) :
    blockFreq px w h g lx ly = freqOf (blockPixels px w g lx ly) := by
  unfold blockFreq freqOf blockPixels
  rw [blockCells_full w h g lx ly hlx hly, List.foldl_map]


theorem pixelAt_flatMap_grid (lw : Nat) (f : Nat → Nat → Pixel) (l : List Nat)
    (x0 y0 : Nat) (hx : x0 < lw) (hy : y0 < l.length) :
    pixelAt (l.flatMap fun y => (List.range lw).map fun x => f x y) (y0 * lw + x0) =
      f x0 (l.getD y0 0) := by
  induction l generalizing y0 with
  | nil => simp at hy
  | cons a tl ih =>
    cases y0 with
    | zero =>
      simp only [List.flatMap_cons, Nat.zero_mul, Nat.zero_add]
      unfold pixelAt
      rw [List.getD_append _ _ _ _ (by simpa [List.length_map, List.length_range] using hx)]
      exact pixelAt_range_map lw x0 (fun x => f x a) hx
    | succ y1 =>
      simp only [List.flatMap_cons]
      unfold pixelAt
      rw [List.getD_append_right _ _ _ _
        (by simp only [List.length_map, List.length_range]; rw [Nat.succ_mul]; omega)]
      have hidx : (y1 + 1) * lw + x0 - ((List.range lw).map fun x => f x a).length =
          y1 * lw + x0 := by
        simp only [List.length_map, List.length_range]
        rw [Nat.succ_mul]
        omega
      rw [hidx]
      exact ih y1 (by simpa using hy)

theorem snapToGrid_ok_pixel (px : Buffer) (w h g : Nat) (res : SnapResult)
    (hg : 2 ≤ g) (hres : snapToGrid px w h g = .ok res) (lx ly : Nat)
    (hlx : lx < res.width) (hly : ly < res.height) :
    res.width = w / g ∧ res.height = h / g ∧
      pixelAt res.data (ly * res.width + lx) = snapBlock px w h g lx ly := by
  unfold snapToGrid at hres
  rw [if_neg (by omega), if_neg (by omega)] at hres
  by_cases hdim : w / g = 0 ∨ h / g = 0
  · rw [if_pos hdim] at hres
    exact absurd hres (by simp)
  · rw [if_neg hdim] at hres
    have hres2 := (Except.ok.injEq _ _).mp hres
    subst hres2
    refine ⟨rfl, rfl, ?_⟩
    have hwg : lx < w / g := hlx
    have hhg : ly < h / g := hly
    show pixelAt ((List.range (h / g)).flatMap fun ly0 =>
        (List.range (w / g)).map fun lx0 => snapBlock px w h g lx0 ly0) (ly * (w / g) + lx) =
      snapBlock px w h g lx ly
    rw [pixelAt_flatMap_grid (w / g) (fun lx0 ly0 => snapBlock px w h g lx0 ly0)
      (List.range (h / g)) lx ly hwg (by simpa using hhg)]
    congr 1
    rw [List.getD_eq_getElem _ _ (by simpa using hhg)]
    simp


theorem cellWeight_pos (g dx dy : Nat) : 0 < cellWeight g dx dy := by
  unfold cellWeight
  have h1 : (0:ℝ) ≤ Real.sqrt (((dx : ℝ) - ((g : ℝ) - 1) / 2) ^ 2 +
      ((dy : ℝ) - ((g : ℝ) - 1) / 2) ^ 2) := Real.sqrt_nonneg _
  positivity

theorem blockFallback_eq_spec (px : Buffer) (w h g lx ly : Nat) (hg : 1 ≤ g)
    (hlx : lx < w / g) (hly : ly < h / g) :
    blockFallback px w h g lx ly = specWeightedAverage px w g lx ly := by
  have htw : 0 < ((fullCells g).map fun c => cellWeight g c.1 c.2).sum := by
    apply List.sum_pos
    · intro x hx
      rcases List.mem_map.mp hx with ⟨c, _, hc⟩
      rw [← hc]
      exact cellWeight_pos g c.1 c.2
    · have hne : (fullCells g).length ≠ 0 := by
        rw [length_fullCells]
        exact Nat.pos_iff_ne_zero.mp (Nat.mul_pos hg hg)
      intro hcon
      rw [List.map_eq_nil_iff.mp hcon] at hne
      simp at hne
  simp only [blockFallback, specWeightedAverage]
  rw [blockCells_full w h g lx ly hlx hly, if_pos htw]

set_option maxHeartbeats 1000000 in
/-- C4: a block processed by `snapToGrid` with grid size at least 2 obeys
the majority / weighted-fallback rule: a color holding strictly more than
half of the block's `g*g` pixels is emitted with the rounded mean of its
alphas, and otherwise the block snaps to the inverse-center-distance
weighted average of all its pixels, rounded per channel. -/
theorem C4_snapToGrid_block_rule (px : Buffer) (w h g : Nat) (res : SnapResult)
    (hg : 2 ≤ g) (hres : snapToGrid px w h g = .ok res) (lx ly : Nat)
    (hlx : lx < res.width) (hly : ly < res.height) :
    (∀ r gc bc, g * g < 2 * countRGB (blockPixels px w g lx ly) r gc bc →
        pixelAt res.data (ly * res.width + lx) =
          ⟨r, gc, bc, roundDiv (alphaSumRGB (blockPixels px w g lx ly) r gc bc)
            (countRGB (blockPixels px w g lx ly) r gc bc)⟩) ∧
    ((∀ r gc bc, 2 * countRGB (blockPixels px w g lx ly) r gc bc ≤ g * g) →
        pixelAt res.data (ly * res.width + lx) = specWeightedAverage px w g lx ly) := by
  obtain ⟨hw, hh, hpix⟩ := snapToGrid_ok_pixel px w h g res hg hres lx ly hlx hly
  rw [hw] at hlx
  rw [hh] at hly
  have hfreq := blockFreq_eq_freqOf px w h g lx ly hlx hly
  obtain ⟨hcnt, hnd, hmem⟩ := freqOf_invariant (blockPixels px w g lx ly)
  have hlen : (blockPixels px w g lx ly).length = g * g := by
    unfold blockPixels
    rw [List.length_map, length_fullCells]
  constructor
  · intro r gc bc hmaj
    rw [hpix]
    unfold snapBlock
    rw [hfreq]
    have hkmem : (r, gc, bc) ∈ (freqOf (blockPixels px w g lx ly)).map entryKey := by
      have hpos : 0 < countRGB (blockPixels px w g lx ly) r gc bc := by omega
      obtain ⟨q, hqm, hq⟩ := countRGB_pos_exists _ r gc bc hpos
      have hkq : pixKey q = (r, gc, bc) := by simp [pixKey, hq.1, hq.2.1, hq.2.2]
      exact hkq ▸ hmem q hqm
    have hsome := majorityFind_eq_some (freqOf (blockPixels px w g lx ly))
      (blockPixels px w g lx ly) r gc bc (by omega) hcnt hkmem
    rw [hlen] at hsome
    rw [hsome]
  · intro hnomaj
    rw [hpix]
    unfold snapBlock
    rw [hfreq]
    have hnone := majorityFind_eq_none (freqOf (blockPixels px w g lx ly))
      (blockPixels px w g lx ly) (fun e he => (hcnt e he).1)
      (fun r gc bc => by rw [hlen]; exact hnomaj r gc bc)
    rw [hlen] at hnone
    rw [hnone]
    exact blockFallback_eq_spec px w h g lx ly (by omega) hlx hly

/-- A 2×2 test block: three pixels of one color and one of another. -/
def c4px : Buffer :=
  [⟨10, 20, 30, 100⟩, ⟨10, 20, 30, 101⟩, ⟨10, 20, 30, 102⟩, ⟨1, 2, 3, 40⟩]

theorem C4_snapToGrid_block_rule_witness :
    (2 ≤ 2 ∧ snapToGrid c4px 2 2 2 = .ok ⟨[snapBlock c4px 2 2 2 0 0], 1, 1⟩ ∧
      (0 : Nat) < 1 ∧ (0 : Nat) < 1) ∧
    ((∀ r gc bc, 2 * 2 < 2 * countRGB (blockPixels c4px 2 2 0 0) r gc bc →
        pixelAt (SnapResult.mk [snapBlock c4px 2 2 2 0 0] 1 1).data
          (0 * (SnapResult.mk [snapBlock c4px 2 2 2 0 0] 1 1).width + 0) =
          ⟨r, gc, bc, roundDiv (alphaSumRGB (blockPixels c4px 2 2 0 0) r gc bc)
            (countRGB (blockPixels c4px 2 2 0 0) r gc bc)⟩) ∧
      ((∀ r gc bc, 2 * countRGB (blockPixels c4px 2 2 0 0) r gc bc ≤ 2 * 2) →
        pixelAt (SnapResult.mk [snapBlock c4px 2 2 2 0 0] 1 1).data
          (0 * (SnapResult.mk [snapBlock c4px 2 2 2 0 0] 1 1).width + 0) =
          specWeightedAverage c4px 2 2 0 0)) :=
  ⟨⟨by decide, by rfl, by decide, by decide⟩,
   C4_snapToGrid_block_rule c4px 2 2 2 ⟨[snapBlock c4px 2 2 2 0 0], 1, 1⟩ (by decide) (by rfl)
     0 0 (by decide) (by decide)⟩

end SpriteSprout
